import Mathlib

/-
Verification development for the IDL parser (src/idl_parser.h, src/idl_parser.cxx).

The development shallowly embeds the preprocessor, the scanner primitives, the
type registry and the declaration parser.  C character buffers are modelled as
`List Char`; the NUL terminator is modelled by the end of the list.  C `int`
results that can be negative are modelled as `Int`.  The `error`/`TRACE_ERROR`
macros in the source are `printf`-style prints that do not abort, so scanner
"errors" that merely print are modelled as ordinary continuations; the
preprocessor error paths that free the buffer before printing (after which the
original continues into freed memory, i.e. undefined behaviour) are modelled as
fatal results (`none`).  Loops whose termination is not structural are given
explicit fuel; the fuel is always instantiated large enough for the inputs at
hand.

Names are used directly as hash values (`getHash` is the identity): the
specification declares hash collisions between distinct declared names to be
outside the contract, so an injective hash is a faithful model.
-/

namespace IdlProof

/-! ## Character constants and classifiers -/
/-- NUL, modelling the C string terminator where it is compared against. -/
def nulChar : Char := Char.ofNat 0

/-- Double quote. -/
def qChar : Char := Char.ofNat 34

/-- Single quote. -/
def aposChar : Char := Char.ofNat 39

/-- Backslash. -/
def bsChar : Char := Char.ofNat 92

/-- Caret. -/
def caretChar : Char := Char.ofNat 94

/-- The delimiter set `" \n,.=:;()[]{}<>+-*%!&|^\"'"` plus `*` and `/` used by
the preprocessor's macro-substitution lookback (idl_parser.cxx:1085). -/
def delims : List Char :=
  [' ', '\n', ',', '.', '=', ':', ';', '(', ')', '[', ']', '{', '}', '<', '>',
   '+', '-', '*', '/', '%', '!', '&', '|', caretChar, qChar, aposChar]

/-- Characters accepted inside names/tokens: `isalpha || isdigit || strchr("_:")`
(idl_parser.cxx:1216, 1298). -/
def isNameChar (c : Char) : Bool :=
  c.isAlpha || c.isDigit || c = '_' || c = ':'

/-- `skip_spaces` advances over `" \n"` only (idl_parser.cxx:1170). -/
def dropSpaces (l : List Char) : List Char :=
  l.dropWhile (fun c => c = ' ' || c = '\n')

/-! ## Scanner primitives (idl_parser.cxx:1170-1462)

Buffer-overflow checks in the source only print and keep writing, so the
destination buffers are modelled as unbounded. -/
/-- `Parser::read_token` with no symbol set: skip spaces, then consume
name characters.  When the input is exhausted after the skip the source
returns 0 consumed bytes, so the original list is returned unchanged. -/
def readToken (l : List Char) : String × List Char :=
  match dropSpaces l with
  | [] => ("", l)
  | c :: r =>
    (String.mk ((c :: r).takeWhile isNameChar), (c :: r).dropWhile isNameChar)

/-- `Parser::read_name`: skip spaces, then consume name characters (the
bad-name diagnostic only prints). -/
def readName (l : List Char) : String × List Char :=
  match dropSpaces l with
  | l1 => (String.mk (l1.takeWhile isNameChar), l1.dropWhile isNameChar)

/-- `Parser::get_symbol`: peek the next non-space character without
consuming it (the bad-symbol diagnostic only prints). -/
def getSymC (l : List Char) : Char :=
  ((dropSpaces l).headD nulChar)

/-- `Parser::expect_symbol`: skip spaces and consume one character
(a mismatch only prints before the character is consumed). -/
def expectSym (l : List Char) : List Char :=
  match dropSpaces l with
  | [] => []
  | _ :: r => r

/-- Escape bookkeeping for `readBlockAux`: `norm` is ordinary scanning,
`dropNl` consumes the newline of a backslash-newline pair, and `post`
processes the character right after the pair, which in the source receives
only the `from`/`to` accounting and the terminator check before being
copied. -/
inductive EMode where
  | norm : EMode
  | dropNl : EMode
  | post : EMode
deriving DecidableEq, Repr

/-- Loop body of `Parser::read_block` (idl_parser.cxx:1349-1428): `instr`
holds the string flag, `br` the parenthesis counter, `ct` the `from`/`to`
nesting counter and `prev` the previously consumed character.  Counter
underflow diagnostics only print in the source, so the counters simply go
negative here.  A backslash immediately followed by a newline is skipped
(via `EMode`) and the following character receives only the `from`/`to`
accounting, exactly as in the source. -/
def readBlockAux (fromC toC : Char) :
    Bool → EMode → Int → Int → Char → List Char → List Char →
    List Char × List Char
  | _, _, _, _, _, acc, [] => (acc.reverse, [])
  | _, .dropNl, br, ct, prev, acc, _ :: r =>
    readBlockAux fromC toC false .post br ct prev acc r
  | _, .post, br, ct, _, acc, c :: r =>
    let ct1 : Int :=
      if fromC ≠ nulChar ∧ toC ≠ nulChar then
        if c = fromC then ct + 1 else if c = toC then ct - 1 else ct
      else ct
    if c = toC ∧ ct1 = 0 ∧ br = 0 then (acc.reverse, r)
    else readBlockAux fromC toC false .norm br ct1 c (c :: acc) r
  | true, .norm, br, ct, prev, acc, c :: r =>
    if c = qChar ∧ prev ≠ bsChar then
      if c = toC then (acc.reverse, r)
      else readBlockAux fromC toC false .norm br ct c (c :: acc) r
    else readBlockAux fromC toC true .norm br ct c (c :: acc) r
  | false, .norm, br, ct, _, acc, c :: r =>
    if c = qChar then
      if c = toC ∧ ct = 0 ∧ br = 0 then (acc.reverse, r)
      else readBlockAux fromC toC true .norm br ct c (c :: acc) r
    else
      let br1 : Int :=
        if c = '(' then br + 1 else if c = ')' then br - 1 else br
      if c = bsChar ∧ r.headD nulChar = '\n' then
        readBlockAux fromC toC false .dropNl br1 ct c acc r
      else
        let ct1 : Int :=
          if fromC ≠ nulChar ∧ toC ≠ nulChar then
            if c = fromC then ct + 1 else if c = toC then ct - 1 else ct
          else ct
        if c = toC ∧ ct1 = 0 ∧ br1 = 0 then (acc.reverse, r)
        else readBlockAux fromC toC false .norm br1 ct1 c (c :: acc) r

/-- `Parser::read_block` (idl_parser.cxx:1314): skip leading spaces, consume
an explicit opener when present, then scan with `readBlockAux`.  Returns the
captured text and the unconsumed remainder (when only spaces remain the
source reports 0 consumed bytes, so the original list is returned). -/
def readBlock (fromC toC : Char) (l : List Char) : List Char × List Char :=
  let l1 := l.dropWhile (fun c => c = ' ')
  match l1 with
  | [] => ([], l)
  | c :: r =>
    if c = fromC then
      readBlockAux fromC toC (fromC = qChar) .norm (if fromC = '(' then 1 else 0)
        1 fromC [] r
    else readBlockAux fromC toC false .norm 0 0 nulChar [] l1

/-! ## String-library helpers

The `String`/`Explode`/`basename` helpers come from the repository's
`str.h`, which is not part of the two source files.  They are modelled
from the specification. -/
/-- Modelled from the spec: `Explode` splits a character list at a separator
into the non-empty pieces ("each statement is split on single spaces into
tokens"). -/
def explodeAux (sep : Char) : List Char → List Char → List String
  | cur, [] => if cur.isEmpty then [] else [String.mk cur.reverse]
  | cur, c :: r =>
    if c = sep then
      if cur.isEmpty then explodeAux sep [] r
      else String.mk cur.reverse :: explodeAux sep [] r
    else explodeAux sep (c :: cur) r

/-- Modelled from the spec: split into tokens at a separator character. -/
def explode (sep : Char) (l : List Char) : List String :=
  explodeAux sep [] l

/-- Modelled from the spec: `String::replace`, replacing every non-overlapping
occurrence of a pattern left to right.  Fueled by the input length. -/
def replaceAllF : Nat → List Char → List Char → List Char → List Char
  | 0, _, _, l => l
  | f + 1, pat, rep, l =>
    match l with
    | [] => []
    | c :: r =>
      if pat ≠ [] ∧ pat.isPrefixOf (c :: r) then
        rep ++ replaceAllF f pat rep ((c :: r).drop pat.length)
      else c :: replaceAllF f pat rep r

/-- Modelled from the spec: replace every occurrence of `pat` by `rep`. -/
def replaceAll (pat rep l : List Char) : List Char :=
  replaceAllF (l.length + 1) pat rep l

/-- Whether `pat` occurs as a contiguous substring (`String::find`). -/
def isInfixB (pat l : List Char) : Bool :=
  l.tails.any (fun t => pat.isPrefixOf t)

/-- Modelled from the spec: `String::basename`, the part after the last `/`. -/
def basenameM (s : String) : String :=
  String.mk ((s.data.reverse.takeWhile (fun c => c ≠ '/')).reverse)

/-- Modelled from the spec: `atol` on the textual bound of a sequence
(leading decimal digits, 0 when there are none). -/
def atolM (s : String) : Int :=
  ((String.mk (s.data.takeWhile Char.isDigit)).toNat?).getD 0

/-- The hash of a declared name.  The specification requires the hash to be
deterministic and collision-free within a session, so names themselves serve
as hash values. -/
def getHash (s : String) : String := s

/-! ## Minification (`minify_code`, idl_parser.cxx:60-91)

The macro is a single in-place scan; it is embedded as a mode-tagged
structural recursion.  Line comments skip to (not past) the newline; block
comments scan for `*/` starting from the `*` of the opener; string literals
are copied verbatim with the source's one-character escape check; an
unterminated block comment consumes the rest of the input (the source walks
past the terminator there, which is undefined behaviour in C). -/
/-- Scanner mode for `minifyM`: normal text, line comment, block comment
(tracking whether the previous character was `*`), or string literal
(tracking the previous character for the escape check). -/
inductive MMode where
  | normal : MMode
  | lineC : MMode
  | blockC : Bool → MMode
  | strM : Char → MMode
deriving DecidableEq, Repr

/-- The `minify_code` scan. -/
def minifyM : MMode → List Char → List Char
  | _, [] => []
  | .lineC, c :: r =>
    if c = '\n' then
      if r.headD nulChar = '\n' then minifyM .normal r
      else '\n' :: minifyM .normal r
    else minifyM .lineC r
  | .blockC prevStar, c :: r =>
    if prevStar ∧ c = '/' then minifyM .normal r
    else minifyM (.blockC (c = '*')) r
  | .strM prev, c :: r =>
    if c = qChar ∧ prev ≠ bsChar then c :: minifyM .normal r
    else c :: minifyM (.strM c) r
  | .normal, c :: r =>
    if c = '/' ∧ r.headD nulChar = '/' then minifyM .lineC r
    else if c = '/' ∧ r.headD nulChar = '*' then minifyM (.blockC false) r
    else if c = qChar then c :: minifyM (.strM c) r
    else if c = '\r' then minifyM .normal r
    else if c = '\t' then ' ' :: minifyM .normal r
    else if c = ' ' ∧ r.headD nulChar = ' ' then minifyM .normal r
    else if c = '\n' ∧ r.headD nulChar = '\n' then minifyM .normal r
    else c :: minifyM .normal r

/-- `minify_code` applied to a whole buffer. -/
def minify (l : List Char) : List Char := minifyM .normal l

/-! ## The define table (`Map<String,String> defines`, idl_parser.h:327)

An ordered association list with unique keys; `std::map` iteration order is
irrelevant to lookups because keys are unique. -/
/-- The define table. -/
abbrev DefMap := List (String × String)

/-- `defines[name] = value`: update in place or append. -/
def insertDef (k v : String) (m : DefMap) : DefMap :=
  if m.any (fun e => e.1 = k) then
    m.map (fun e => if e.1 = k then (k, v) else e)
  else m ++ [(k, v)]

/-- `defines.erase(name)`. -/
def eraseDef (k : String) (m : DefMap) : DefMap :=
  m.filter (fun e => e.1 ≠ k)

/-- `IdlParser::ifdef`: membership of a name in the table. -/
def hasDef (k : String) (m : DefMap) : Bool :=
  m.any (fun e => e.1 = k)

/-- The substitution lookup (idl_parser.cxx:1096-1102): the first entry whose
key equals the identifier run (size check plus `strncmp`). -/
def findDef (run : List Char) (m : DefMap) : Option String :=
  (m.find? (fun e => e.1.data = run)).map (fun e => e.2)

/-- The conjunction of the conditional-compilation stack, exactly as the
source recomputes `define_ok` after every stack operation
(idl_parser.cxx:853-861 and the analogous loops). -/
def allTrue (l : List Bool) : Bool := l.all (fun b => b)

/-! ## The preprocessor (idl_parser.cxx:807-1167)

State of one `preprocessor(path, file, data, len)` call.  The output is
accumulated in reversed `outRev` (most recent character first) because the
macro-substitution lookback scans the output backwards.  The conditional
stack is stored top-first (`push_back` in the source appends at the end;
the list here conses at the head), which is a faithful mirroring since the
enabled predicate is the AND of all entries. -/
structure PPState where
  src : List Char
  outRev : List Char
  stack : List Bool
  defOk : Bool
  defs : DefMap
  line : Nat
deriving DecidableEq, Repr

/-- The defined-words replacement performed right after a character is
written to the output (idl_parser.cxx:1085-1137): when the written
character is a delimiter and is not the first output character, the
maximal non-delimiter run before it is looked up in the define table;
a bound value whose first character is not `0` (which includes the empty
value) replaces the run, otherwise the run is deleted. -/
def substitute (c : Char) (outRev : List Char) (defs : DefMap) : List Char :=
  if c ∈ delims ∧ outRev ≠ [] then
    let runRev := outRev.takeWhile (fun x => ¬ x ∈ delims)
    if runRev.isEmpty then c :: outRev
    else
      match findDef runRev.reverse defs with
      | some v =>
        if v.data.headD nulChar = '0' then c :: outRev.drop runRev.length
        else c :: (v.data.reverse ++ outRev.drop runRev.length)
      | none => c :: outRev
  else c :: outRev

/-- The verbatim string-literal copy in the preprocessor character loop
(idl_parser.cxx:1141-1146): copy until an unescaped closing quote, copying
the closing quote as well.  Returns the extended reversed output and the
remainder. -/
def copyStr (prev : Char) : List Char → List Char → List Char × List Char
  | [], out => (out, [])
  | c :: r, out =>
    if c = qChar ∧ prev ≠ bsChar then (c :: out, r)
    else copyStr c r (c :: out)

/-- Result of one iteration of the preprocessor loop. -/
inductive PPAct where
  | eof : PPAct
  | fatal : PPAct
  | step : PPState → PPAct
  | inc : String → PPState → PPAct
deriving Repr

/-- Directory part of a path: everything before the last `/` or `\`
(idl_parser.cxx:117-121). -/
def dirOf (s : String) : String :=
  String.mk
    ((s.data.reverse.dropWhile (fun c => c ≠ '/' ∧ c ≠ bsChar)).drop 1).reverse

/-- Directive dispatch of the preprocessor loop (idl_parser.cxx:847-1046):
the `strcmp` chain on the directive name, run after `#` and the directive
token have been consumed.  Unknown directives and `#else`/`#endif` against
an empty stack free the buffer and are fatal.  For `#include`, a
`PPAct.inc` is returned and the caller splices the recursively preprocessed
file. -/
def ppDirective (st : PPState) (buf : String) (r2 : List Char) : PPAct :=
  if buf = "ifdef" then
    let stk := hasDef (readName r2).1 st.defs :: st.stack
    .step { st with src := (readName r2).2, stack := stk, defOk := allTrue stk }
  else if buf = "elif" then
    .step { st with src := r2.dropWhile (fun x => x ≠ '\n') }
  else if buf = "ifndef" then
    let stk := (! hasDef (readName r2).1 st.defs) :: st.stack
    .step { st with src := (readName r2).2, stack := stk, defOk := allTrue stk }
  else if buf = "else" then
    match st.stack with
    | [] => .fatal
    | b :: t =>
      let stk := (! b) :: t
      .step { st with src := r2, stack := stk, defOk := allTrue stk }
  else if buf = "endif" then
    match st.stack with
    | [] => .fatal
    | _ :: t =>
      .step { st with src := r2, stack := t, defOk := allTrue t }
  else if buf = "if" then
    .step { st with src := r2.dropWhile (fun x => x ≠ '\n') }
  else if buf = "define" then
    let nm := (readName r2).1
    let r3 := (readName r2).2
    let vr :=
      if r3.headD nulChar = '\n' then (([] : List Char), r3.drop 1)
      else readBlock nulChar '\n' r3
    let defs' := if st.defOk then insertDef nm (String.mk vr.1) st.defs
      else st.defs
    .step { st with src := vr.2, defs := defs' }
  else if buf = "undef" then
    let defs' := if st.defOk then eraseDef (readName r2).1 st.defs else st.defs
    .step { st with src := (readName r2).2, defs := defs' }
  else if buf = "pragma" then
    .step { st with src := (readBlock nulChar '\n' (readName r2).2).2 }
  else if buf = "include" then
    let nr :=
      if getSymC r2 = qChar then readBlock qChar qChar r2
      else if getSymC r2 = '<' then readBlock '<' '>' r2
      else (([] : List Char), r2)
    if st.defOk then .inc (String.mk nr.1) { st with src := nr.2 }
    else .step { st with src := nr.2 }
  else .fatal

/-- Character processing of the preprocessor loop (idl_parser.cxx:1048-1148):
refresh `__FILE__`/`__LINE__`, skip the character when disabled, copy
character literals untouched, and otherwise write the character with the
defined-words replacement, copying string-literal bodies verbatim. -/
def ppChar (fn : String) (st : PPState) (c : Char) (rest : List Char) : PPAct :=
  let ln := if c = '\n' then st.line + 1 else st.line
  let fileVal :=
    String.mk [qChar] ++ fn ++ ":" ++ toString ln ++ String.mk [qChar]
  let defs2 := insertDef "__LINE__" (toString ln)
    (insertDef "__FILE__" fileVal st.defs)
  if st.defOk = false then
    .step { st with src := rest, defs := defs2, line := ln }
  else if c = aposChar ∧ rest.headD nulChar = bsChar ∧
      (rest.drop 1) ≠ [] ∧ (rest.drop 2).headD nulChar = aposChar then
    .step { st with
            src := rest.drop 3,
            outRev := (rest.take 3).reverse ++ c :: st.outRev,
            defs := defs2, line := ln }
  else if c = aposChar ∧ (rest.drop 1).headD nulChar = aposChar then
    .step { st with
            src := rest.drop 2,
            outRev := (rest.take 2).reverse ++ c :: st.outRev,
            defs := defs2, line := ln }
  else if c = qChar then
    .step { st with
            src := (copyStr c rest (substitute c st.outRev defs2)).2,
            outRev := (copyStr c rest (substitute c st.outRev defs2)).1,
            defs := defs2, line := ln }
  else
    .step { st with
            src := rest, outRev := substitute c st.outRev defs2,
            defs := defs2, line := ln }

/-- One iteration of the preprocessor `while(*s)` loop
(idl_parser.cxx:829-1149): end of input, a `#` directive (the line counter
is not advanced there, `#` is not a newline), or one character of ordinary
text. -/
def ppIter (fn : String) (st : PPState) : PPAct :=
  match st.src with
  | [] => .eof
  | c :: rest =>
    if c = '#' then ppDirective st (readToken rest).1 (readToken rest).2
    else ppChar fn st c rest

/-- Initial preprocessor state for a buffer (after `minify_code`) and an
inherited define table. -/
def ppInit (src : List Char) (defs : DefMap) : PPState :=
  { src := src, outRev := [], stack := [], defOk := true, defs := defs,
    line := 0 }

/-- The preprocessor loop.  Returns the trace of iteration-entry states
(including states of recursively preprocessed includes) and the final
result: `none` models the fatal paths (buffer freed before the diagnostic),
including a conditional stack that is still non-empty at end of input
(idl_parser.cxx:1152-1164).  `fs` models the file system for `#include`;
a missing file is fatal (the source asserts).  Fuel bounds the recursion;
it is always instantiated above the number of iterations needed. -/
def ppRun (fs : String → Option String) :
    Nat → String → String → PPState → List PPState × Option (List Char × DefMap)
  | 0, _, _, _ => ([], none)
  | fuel + 1, fn, path, st =>
    match ppIter fn st with
    | .eof =>
      ([st], if st.stack = [] then some (st.outRev.reverse, st.defs) else none)
    | .fatal => ([st], none)
    | .step st' =>
      match ppRun fs fuel fn path st' with
      | (tr, r) => (st :: tr, r)
    | .inc f st' =>
      match fs f with
      | none => ([st], none)
      | some content =>
        match ppRun fs fuel f (dirOf f) (ppInit (minify content.data) st.defs) with
        | (tr1, none) => (st :: tr1, none)
        | (tr1, some (txt, defs')) =>
          match ppRun fs fuel fn path
            { st' with outRev := txt.reverse ++ st'.outRev, defs := defs' } with
          | (tr2, r) => (st :: (tr1 ++ tr2), r)

/-- `IdlParser::preprocessor(path, file, data, len)`: minify, then run the
directive/substitution loop. -/
def preprocess (fs : String → Option String) (fuel : Nat)
    (fn path : String) (text : String) (defs0 : DefMap) :
    List PPState × Option (List Char × DefMap) :=
  ppRun fs fuel fn path (ppInit (minify text.data) defs0)

/-- An empty file system (no includable files). -/
def fsNone : String → Option String := fun _ => none

/-! ## The type registry (idl_parser.h:75-179, idl_parser.cxx:148-416)

Type codes are the source's integer bands: builtin types at
`i + TYPE_SPACER`, base keywords at `i + BASE_SPACER`, user typedefs at
`index + USER_BASE_SPACER_TYPEDEF`, user structs at
`index + USER_BASE_SPACER_STRUCT`. -/
/-- `TYPE_SPACER` from `TypeAndCommande_e`. -/
def TYPE_SPACER : Int := 1024

/-- `BASE_SPACER` from `TypeAndCommande_e`. -/
def BASE_SPACER : Int := 4096

/-- `USER_BASE_SPACER_TYPEDEF` from `TypeAndCommande_e`. -/
def USER_BASE_SPACER_TYPEDEF : Int := 8192

/-- `USER_BASE_SPACER_STRUCT` from `TypeAndCommande_e`. -/
def USER_BASE_SPACER_STRUCT : Int := 16384

/-- `LAST_TYPE`: number of builtin type keywords. -/
def LAST_TYPE : Nat := 22

/-- `BASE_START`: first base-keyword index. -/
def BASE_START : Nat := 22

/-- `ID_STRUCT` (= `BASE_START`). -/
def ID_STRUCT : Nat := 22

/-- `ID_SEQUENCE`. -/
def ID_SEQUENCE : Nat := 20

/-- The `__internal_hash` table: builtin type keywords (indices `0..21`)
followed by the base keywords (indices `22..24`), idl_parser.cxx:160-205. -/
def internalNames : List String :=
  ["void", "octet", "int8_t", "int16_t", "short", "int32_t", "int", "long",
   "int64_t", "long long", "uint8_t", "uint16_t", "uint32_t", "uint64_t",
   "bool", "boolean", "char", "float", "string", "double", "sequence",
   "const", "struct", "module", "typedef"]

/-- `Typedef_t` (idl_parser.h:127-141).  The default constructor leaves
`size = -1`. -/
structure Typedef_t where
  hash : String
  type : Int
  name : String
  baseName : String
  nameSpace : String
  size : Int
deriving DecidableEq, Repr

/-- The default-constructed `Typedef_t` (the "zero-valued" unresolved
entry). -/
def tdDefault : Typedef_t := ⟨"", 0, "", "", "", -1⟩

instance : Inhabited Typedef_t := ⟨tdDefault⟩

/-- `Variable_t` (idl_parser.h:152-162). -/
structure Variable_t where
  hash : String
  type : Typedef_t
  is_key : Bool
  name : String
  struct_name : String
  fromNamespace : String
deriving DecidableEq, Repr

instance : Inhabited Variable_t := ⟨⟨"", tdDefault, false, "", "", ""⟩⟩

/-- `Struct_t` (idl_parser.h:164-172). -/
structure Struct_t where
  hash : String
  type : Int
  name : String
  nameSpace : String
  fields : List Variable_t
deriving DecidableEq, Repr

instance : Inhabited Struct_t := ⟨⟨"", 0, "", "", []⟩⟩

/-- `Enum_t` (idl_parser.h:116-124); present in the session state but never
written by the embedded operations. -/
structure Enum_t where
  hash : String
  type : Int
  name : String
  nameSpace : String
  body : String
deriving DecidableEq, Repr

/-- `Module_t` (idl_parser.h:143-150); present in the session state but never
written by the embedded operations. -/
structure Module_t where
  hash : String
  type : Int
  name : String
  body : String
deriving DecidableEq, Repr

/-- The mutable members of class `Parser` (idl_parser.h:260-269).  The
`variables` member is called `vars` here because `variables` is reserved
in Lean. -/
structure ParserState where
  enums : List Enum_t
  typedefs : List Typedef_t
  structs : List Struct_t
  vars : List Variable_t
  modules : List Module_t
  udefines : List String
  nameSpace : String
deriving DecidableEq, Repr

/-- A freshly constructed `Parser`. -/
def psEmpty : ParserState := ⟨[], [], [], [], [], [], ""⟩

/-- The scan of `__internal_hash[0..LAST_TYPE)` shared by
`Parser::is_builtin_type` and the first loop of `Parser::getRealType`. -/
def lookupBuiltinType (h : String) : Option Nat :=
  (internalNames.take LAST_TYPE).findIdx? (fun n => n = h)

/-- The scan of `__internal_hash[BASE_START..LAST_BASE)` of
`Parser::is_builtin_base`. -/
def lookupBuiltinBase (h : String) : Option Nat :=
  ((internalNames.drop BASE_START).findIdx? (fun n => n = h)).map
    (fun i => i + BASE_START)

/-- `Parser::is_builtin_type` (idl_parser.cxx:351): the found type code, if
any. -/
def is_builtin_type (h : String) : Option Int :=
  (lookupBuiltinType h).map (fun i => (i : Int) + TYPE_SPACER)

/-- `Parser::is_builtin_base` (idl_parser.cxx:366). -/
def is_builtin_base (h : String) : Option Int :=
  (lookupBuiltinBase h).map (fun i => (i : Int) + BASE_SPACER)

/-- `Parser::is_typedef` (idl_parser.cxx:396): first matching typedef index,
banded. -/
def is_typedef (st : ParserState) (h : String) : Option Int :=
  (st.typedefs.findIdx? (fun t => t.hash = h)).map
    (fun i => (i : Int) + USER_BASE_SPACER_TYPEDEF)

/-- `Parser::is_struct` (idl_parser.cxx:381). -/
def is_struct (st : ParserState) (h : String) : Option Int :=
  (st.structs.findIdx? (fun t => t.hash = h)).map
    (fun i => (i : Int) + USER_BASE_SPACER_STRUCT)

/-- `Parser::is_user_base` (idl_parser.cxx:411): typedefs before structs. -/
def is_user_base (st : ParserState) (h : String) : Option Int :=
  match is_typedef st h with
  | some r => some r
  | none => is_struct st h

/-- `Parser::getType` (idl_parser.cxx:271): builtin type, then builtin base
keyword, then user typedef, then user struct; `-1` when nothing matches. -/
def getType (st : ParserState) (h : String) : Int :=
  match is_builtin_type h with
  | some r => r
  | none =>
    match is_builtin_base h with
    | some r => r
    | none =>
      match is_user_base st h with
      | some r => r
      | none => -1

/-- `Parser::getBase` (idl_parser.cxx:343); the failure assert is modelled
as `-1`. -/
def getBase (h : String) : Int :=
  match is_builtin_base h with
  | some r => r
  | none => -1

/-- `Parser::type2Name` (idl_parser.cxx:257); out-of-range indices (undefined
behaviour in the source) yield `""`. -/
def type2Name (st : ParserState) (ty : Int) : String :=
  if ty ≥ USER_BASE_SPACER_STRUCT then
    ((st.structs.get? (ty - USER_BASE_SPACER_STRUCT).toNat).map
      (fun s => s.name)).getD ""
  else if ty ≥ USER_BASE_SPACER_TYPEDEF then
    ((st.typedefs.get? (ty - USER_BASE_SPACER_TYPEDEF).toNat).map
      (fun s => s.name)).getD ""
  else if ty ≥ BASE_SPACER then
    (internalNames.get? (ty - BASE_SPACER).toNat).getD ""
  else if ty ≥ TYPE_SPACER then
    (internalNames.get? (ty - TYPE_SPACER).toNat).getD ""
  else ""

/-- `Parser::getRealType` (idl_parser.cxx:282): builtin types first, then
typedefs (recursively resolving a non-empty base name while preserving the
stored type code and size), then structs (a self-referential entry built
from the current namespace), and finally the default entry after the
unknown-type diagnostic.  The recursion of the source terminates only on
alias chains without cycles; the fuel is instantiated above the chain
length wherever the function is used. -/
def getRealType : Nat → ParserState → String → Typedef_t
  | 0, _, _ => tdDefault
  | fuel + 1, st, h =>
    match lookupBuiltinType h with
    | some i =>
      { tdDefault with hash := h, name := internalNames.getD i "",
                       type := (i : Int) + TYPE_SPACER }
    | none =>
      match st.typedefs.find? (fun t => t.hash = h) with
      | some td =>
        if td.baseName ≠ "" then
          let r := getRealType fuel st (getHash td.baseName)
          { r with type := td.type, size := td.size }
        else td
      | none =>
        match st.structs.find? (fun t => t.hash = h) with
        | some sE =>
          { tdDefault with hash := h, name := sE.name,
                           nameSpace := st.nameSpace, baseName := sE.name,
                           type := (ID_STRUCT : Int) + USER_BASE_SPACER_STRUCT }
        | none => tdDefault

/-! ## The declaration parser (idl_parser.cxx:418-803) -/
/-- `remove_namespace` (idl_parser.cxx:418): replace `::` by `/`, split, and
when at least two pieces exist return the basename of the second piece
together with the first piece as the stripped namespace. -/
def remove_namespace (name : String) : String × String :=
  let s1 := String.mk (replaceAll "::".data "/".data name.data)
  let mar := explode '/' s1.data
  if mar.length ≥ 2 then (basenameM (mar.getD 1 ""), mar.getD 0 "")
  else (s1, "")

/-- `Parser::parse_variable` (idl_parser.cxx:620): resolve the real type,
build the entry and append it to the flat variable list.  The
`getRealType` fuel covers every terminating alias chain. -/
def parse_variable (st : ParserState) (typeH : String)
    (struct_name name fromNamespace : String) (is_key : Bool) :
    ParserState × Variable_t :=
  let v : Variable_t :=
    { hash := getHash name,
      type := getRealType (st.typedefs.length + 2) st typeH,
      is_key := is_key, name := name, struct_name := struct_name,
      fromNamespace := fromNamespace }
  ({ st with vars := st.vars ++ [v] }, v)

/-- The statement loop of `Parser::parse_struct` (idl_parser.cxx:454-513):
statements are read up to `;`, split on spaces; two tokens give a plain
field (namespace stripped from the type), three tokens starting with
`@key` give a key field — the source applies `remove_namespace` to
`mar[0]` (the `"@key"` token itself) and hashes the unstripped `mar[1]`;
any other three-or-more-token statement prints a diagnostic and then
still calls `parse_variable` with its uninitialized locals (undefined
behaviour in C++), modelled with empty hash and name; shorter statements
are skipped. -/
def parseStructLoop (structName : String) :
    Nat → ParserState → List Variable_t → List Char →
    ParserState × List Variable_t
  | 0, st, fields, _ => (st, fields)
  | fuel + 1, st, fields, src =>
    if src.isEmpty then (st, fields)
    else
      match readBlock nulChar ';' src with
      | (stmt, rest) =>
      let r2 := dropSpaces rest
      let mar := explode ' ' stmt
      if mar.length ≥ 2 then
        if mar.length ≥ 3 then
          if mar.getD 0 "" = "@key" then
            match remove_namespace (mar.getD 0 "") with
            | (_, fromNS) =>
            match parse_variable st (getHash (mar.getD 1 "")) structName
              (mar.getD 2 "") fromNS true with
            | (st', v) => parseStructLoop structName fuel st' (fields ++ [v]) r2
          else
            match parse_variable st "" structName "" "" false with
            | (st', v) => parseStructLoop structName fuel st' (fields ++ [v]) r2
        else
          match remove_namespace (mar.getD 0 "") with
          | (ty, fromNS) =>
          match parse_variable st (getHash ty) structName
            (mar.getD 1 "") fromNS false with
          | (st', v) => parseStructLoop structName fuel st' (fields ++ [v]) r2
      else parseStructLoop structName fuel st fields r2

/-- `Parser::parse_struct` (idl_parser.cxx:437): build the struct header
from the current namespace, process every field statement of the body, and
only then append the finished entry to the struct table. -/
def parse_struct (st : ParserState) (typeH : String) (name : String)
    (body : List Char) : ParserState :=
  let str0 : Struct_t :=
    { hash := getHash name, type := getBase typeH, name := name,
      nameSpace := st.nameSpace, fields := [] }
  match parseStructLoop name (body.length + 1) st [] (dropSpaces body) with
  | (st', fields) =>
    { st' with structs := st'.structs ++ [{ str0 with fields := fields }] }

/-- `Parser::parse_typedef` (idl_parser.cxx:518): normalize `", "` to `","`,
split; a resolvable base type registers an alias carrying the resolved
type code; otherwise a base containing `sequence` registers a sequence
typedef with optional bound; otherwise the declaration is dropped. -/
def parse_typedef (st : ParserState) (body : List Char) : ParserState :=
  let input := replaceAll ", ".data ",".data body
  let mar := explode ' ' input
  let b_hash := if mar.length ≥ 2 then getHash (mar.getD 0 "") else ""
  let res :=
    match is_builtin_type b_hash with
    | some r => some r
    | none => is_user_base st b_hash
  match res with
  | some result =>
    let baseTypeName := type2Name st result
    let newTypeName := mar.getD 1 ""
    { st with typedefs := st.typedefs ++
        [{ hash := getHash newTypeName, type := result, name := newTypeName,
           baseName := baseTypeName, nameSpace := st.nameSpace, size := -1 }] }
  | none =>
    if isInfixB "sequence".data (mar.getD 0 "").data then
      let tStr := replaceAll ">".data " ".data
        (replaceAll "<".data " ".data (mar.getD 0 "").data)
      let mar2 := explode ' ' tStr
      let nm := mar.getD 1 ""
      let base0 : Typedef_t :=
        { hash := getHash nm, type := (ID_SEQUENCE : Int) + TYPE_SPACER,
          name := nm, baseName := mar2.getD 1 "",
          nameSpace := st.nameSpace, size := 0 }
      let mar2b := explode ',' (mar.getD 0 "").data
      if mar2b.length ≥ 2 then
        let m20 := replaceAll "<".data " ".data (mar2b.getD 0 "").data
        let m21 := replaceAll ">".data "".data (mar2b.getD 1 "").data
        let mar3 := explode ' ' m20
        let base1 :=
          if mar3.length = 2 then
            { base0 with baseName :=
                (getRealType (st.typedefs.length + 2) st
                  (getHash (mar3.getD 1 ""))).name }
          else base0
        let base2 := { base1 with size := atolM (String.mk m21) }
        { st with typedefs := st.typedefs ++ [base2] }
      else { st with typedefs := st.typedefs ++ [base0] }
    else st

/-- `IdlParser::parse` (idl_parser.cxx:659): the recursive-descent main
loop.  Returns the updated session state and the unconsumed remainder.
Unknown leading symbols and unknown tokens only print in the source; an
empty token ends the loop.  `defs` is the define table consulted by the
opaque-macro branch.  The fuel bounds both the loop and the brace/module
recursion. -/
def parseP (defs : DefMap) : Nat → ParserState → List Char →
    ParserState × List Char
  | 0, st, src => (st, src)
  | fuel + 1, st, src =>
    let s := dropSpaces src
    match s with
    | [] => (st, [])
    | c :: r =>
      if c = ';' then parseP defs fuel st r
      else if c = '{' then
        match parseP defs fuel st r with
        | (st1, r1) => parseP defs fuel st1 r1
      else if c = '}' then (st, r)
      else
        let buf := String.mk (s.takeWhile isNameChar)
        let r1 := s.dropWhile isNameChar
        if buf = "" then (st, s)
        else
          let b_hash := getHash buf
          let isVar :=
            match is_builtin_type b_hash with
            | some _ => true
            | none => (is_user_base st b_hash).isSome
          if isVar then
            match readBlock nulChar ';' r1 with
            | (decl, r2) =>
            match parse_variable st b_hash "" (String.mk decl) "" false with
            | (st1, _) => parseP defs fuel st1 r2
          else
            match is_builtin_base b_hash with
            | some result =>
              if result - BASE_SPACER = 24 then
                match readBlock nulChar ';' (dropSpaces r1) with
                | (td, r2) => parseP defs fuel (parse_typedef st td) r2
              else if result - BASE_SPACER = 22 then
                match readName r1 with
                | (nm, r2) =>
                match readBlock nulChar '}' (expectSym r2) with
                | (body, r4) =>
                  let st' := parse_struct st b_hash nm body
                  let r5 := if r4.headD nulChar = ';' then r4.drop 1 else r4
                  parseP defs fuel st' r5
              else if result - BASE_SPACER = 23 then
                match readName r1 with
                | (nm, r2) =>
                match parseP defs fuel { st with nameSpace := nm } r2 with
                | (st1, r3) => parseP defs fuel st1 r3
              else parseP defs fuel st r1
            | none =>
              if hasDef buf defs then
                match readBlock nulChar ')' r1 with
                | (args, r2) =>
                  let st' := { st with
                    udefines := st.udefines ++ [buf ++ String.mk args ++ ");"] }
                  parseP defs fuel st' r2
              else parseP defs fuel st r1

/-! ## Session teardown (idl_parser.h:195-197, 251-257, 282) -/
/-- The `IdlParser` members beyond the `Parser` base (idl_parser.h:324-334),
restricted to the state-carrying ones. -/
structure IdlState where
  base : ParserState
  code : String
  defines : DefMap
deriving DecidableEq, Repr

/-- `Parser::clear` (idl_parser.h:251): clears the struct, variable,
user-define and module tables — and nothing else. -/
def parserClear (p : ParserState) : ParserState :=
  { p with structs := [], vars := [], udefines := [], modules := [] }

/-- Session teardown: `~IdlParser` clears the define table and the code
buffer (idl_parser.h:282), then `~Parser` runs `clear()`
(idl_parser.h:195-197). -/
def idlTeardown (s : IdlState) : IdlState :=
  { s with defines := [], code := "", base := parserClear s.base }

/-! ## Concrete session states used by the claim theorems -/
/-- A registry in which the hash of `int32_t` is registered both as a user
typedef (as by `typedef uint32_t int32_t;`) and as the builtin keyword. -/
def stCol : ParserState :=
  { psEmpty with typedefs := [⟨"int32_t", 1036, "int32_t", "uint32_t", "", -1⟩] }

/-- A registry in which the name `T` is registered both as a user typedef
and as a user struct. -/
def stCol2 : ParserState :=
  { psEmpty with
    typedefs := [⟨"T", 8192, "T", "uint32_t", "", -1⟩],
    structs := [⟨"T", 0, "T", "", []⟩] }

/-- The session after `typedef uint32_t A; typedef A B;` and the body of
`struct S { B f; };`. -/
def stC5 : ParserState :=
  parse_struct (parse_typedef (parse_typedef psEmpty "uint32_t A".data) "A B".data)
    "struct" "S" " B f; ".data

/-- The session after parsing `struct X { X f; };` from an empty registry. -/
def stC10 : ParserState := parse_struct psEmpty "struct" "X" " X f; ".data

/-- The session after parsing a struct body with a `@key` field whose type
carries a `::`-qualification, next to a plain field with the same kind of
qualification. -/
def stC6 : ParserState :=
  parse_struct psEmpty "struct" "S" " @key ns::int32_t id; ns2::int32_t val; ".data

/-- The session after parsing nested modules where a struct follows the inner
module's closing brace inside the outer module. -/
def stC7 : ParserState :=
  (parseP [] 30 psEmpty "module A { module B { ; } struct S { } }".data).1

/-- A character on which only the space/blank-line collapsing rules of
`minify_code` can act: not a comment slash, tab, carriage return or
quote. -/
def plainChar (c : Char) : Bool :=
  c ≠ '/' && c ≠ '\t' && c ≠ '\r' && c ≠ qChar

/-- No two adjacent spaces and no two adjacent newlines. -/
def noDouble : List Char → Bool
  | a :: b :: r =>
    !((a == ' ' && b == ' ') || (a == '\n' && b == '\n')) && noDouble (b :: r)
  | _ => true

/-- The tail of the substitution schema after the `#define` line. -/
def c2T : List Char := "int32_t FOO;\n".data

/-- The minified source of the substitution schema. -/
def c2M (v : String) : List Char :=
  "#define FOO ".data ++ (v.data ++ ('\n' :: c2T))

/-- The preprocessor state right after the `#define FOO v` directive. -/
def c2st1 (v : String) : PPState :=
  ⟨c2T, [], [], true, [("FOO", v)], 0⟩

/-- The define table during the substitution schema run: `FOO` plus the
refreshed `__FILE__`/`__LINE__` entries. -/
def defsAt (v fv lv : String) : DefMap :=
  [("FOO", v), ("__FILE__", fv), ("__LINE__", lv)]

/-- A mid-run preprocessor state of the substitution schema: empty
conditional stack, enabled. -/
def c2mid (v : String) (src outRev : List Char) (fv lv : String)
    (ln : Nat) : PPState :=
  ⟨src, outRev, [], true, defsAt v fv lv, ln⟩

set_option maxHeartbeats 1000000
set_option maxRecDepth 8000

/-! ## C5 -/
/-- C5: for `typedef uint32_t A; typedef A B; struct S { B f; };`, the type
entry resolved for field `f` carries `uint32_t`'s printed name in its
identity fields (the recursive resolution of the alias chain overwrote
them) while its advertised type code (8192, the code stored for `B`,
i.e. `USER_BASE_SPACER_TYPEDEF` + the index of `A`) and bound (−1) are the
ones stored for the typedef `B` — not the plain builtin code 1036 of
`uint32_t`. -/
theorem getRealType_typedef_chain :
    ((stC5.structs.getD 0 default).fields.getD 0 default).type =
      ⟨"uint32_t", USER_BASE_SPACER_TYPEDEF, "uint32_t", "", "", -1⟩ ∧
    (stC5.typedefs.getD 1 default).type = USER_BASE_SPACER_TYPEDEF ∧
    (stC5.typedefs.getD 1 default).size = -1 ∧
    (stC5.typedefs.getD 1 default).name = "B" ∧
    is_builtin_type "uint32_t" = some 1036 ∧
    (USER_BASE_SPACER_TYPEDEF : Int) ≠ 1036 := by
  decide

/-! ## C10 -/
/-- C10: while the body of `struct X { X f; }` is parsed the struct itself is
not yet in the registry, so the self-referential field `f` resolves to the
default zero-valued unresolved entry; the finished `StructEntry` is pushed
to the struct table only afterwards. -/
theorem parse_struct_self_reference_unresolved :
    ((stC10.structs.getD 0 default).fields.getD 0 default).type = tdDefault ∧
    ((stC10.structs.getD 0 default).fields.getD 0 default).type.hash = "" ∧
    stC10.structs.map (fun s => s.name) = ["X"] ∧
    psEmpty.structs = [] := by
  decide

/-! ## C6 -/
/-- C6 (code bug): in the three-token form `@key ns::int32_t id;` the source
applies `remove_namespace` to `mar[0]` (the literal `"@key"`) instead of to
the type token, so the registered key field keeps the unstripped type hash
(`ns::int32_t`, which resolves to the zero-valued entry) and an empty
originating namespace — while the two-token form `ns2::int32_t val;` in the
same body strips the qualification, records namespace `ns2` and resolves
the builtin `int32_t`. -/
theorem parse_struct_at_key_namespace_bug :
    ((stC6.structs.getD 0 default).fields.getD 0 default).is_key = true ∧
    ((stC6.structs.getD 0 default).fields.getD 0 default).fromNamespace = "" ∧
    ((stC6.structs.getD 0 default).fields.getD 0 default).type = tdDefault ∧
    ((stC6.structs.getD 0 default).fields.getD 1 default).fromNamespace = "ns2" ∧
    ((stC6.structs.getD 0 default).fields.getD 1 default).type.name = "int32_t" ∧
    remove_namespace "ns::int32_t" = ("int32_t", "ns") := by
  decide

/-! ## C7 -/
/-- C7: after the nested `module B { ... }` block closes, the session's
current namespace still holds `B`: the struct `S` that follows the inner
block inside module `A` is registered under namespace `B`, and the final
namespace value is `B` — nothing restores `A`. -/
theorem parseP_module_namespace_not_restored :
    stC7.nameSpace = "B" ∧
    stC7.structs.map (fun s => (s.name, s.nameSpace)) = [("S", "B")] := by
  decide

/-! ## C8 -/
/-- C8 (counterexample): at teardown the typedef table is not cleared — a
session holding one typedef still holds it after `idlTeardown`, and the
current-namespace string also survives. -/
theorem idlTeardown_typedefs_cex :
    (idlTeardown ⟨⟨[], [⟨"A", 1036, "A", "uint32_t", "", -1⟩], [], [], [], [], "ns"⟩,
      "c", [("F", "1")]⟩).base.typedefs ≠ [] ∧
    (idlTeardown ⟨⟨[], [⟨"A", 1036, "A", "uint32_t", "", -1⟩], [], [], [], [], "ns"⟩,
      "c", [("F", "1")]⟩).base.nameSpace = "ns" := by
  decide

/-- C8 (amended): session teardown clears the struct, variable, user-define
and module tables and the define table (and the code buffer), but leaves
the typedef table, the enum table and the current-namespace string
untouched. -/
theorem idlTeardown_clears_except_typedefs (s : IdlState) :
    (idlTeardown s).base.structs = [] ∧
    (idlTeardown s).base.vars = [] ∧
    (idlTeardown s).base.udefines = [] ∧
    (idlTeardown s).base.modules = [] ∧
    (idlTeardown s).defines = [] ∧
    (idlTeardown s).code = "" ∧
    (idlTeardown s).base.typedefs = s.base.typedefs ∧
    (idlTeardown s).base.enums = s.base.enums ∧
    (idlTeardown s).base.nameSpace = s.base.nameSpace := by
  refine ⟨rfl, rfl, rfl, rfl, rfl, rfl, rfl, rfl, rfl⟩

/-! ## C1 -/
/-- C1 (counterexample): with the hash of `int32_t` registered both as a user
typedef and as a builtin keyword, classification and resolution return the
builtin registration (type code 1029 = index 5 + `TYPE_SPACER`), not the
user typedef registration (8192): user declarations do not shadow
builtins. -/
theorem getType_builtin_shadows_typedef_cex :
    is_typedef stCol "int32_t" = some USER_BASE_SPACER_TYPEDEF ∧
    getType stCol "int32_t" = 1029 ∧
    getType stCol "int32_t" ≠ USER_BASE_SPACER_TYPEDEF ∧
    getRealType 3 stCol "int32_t" =
      ⟨"int32_t", 1029, "int32_t", "", "", -1⟩ ∧
    (getRealType 3 stCol "int32_t").type ≠ USER_BASE_SPACER_TYPEDEF := by
  decide

/-- C1 (amended): a name found in the builtin type table is classified and
resolved as that builtin by `getType` and `getRealType` regardless of any
user typedef or struct registration of the same name — builtins shadow
user declarations; only among user registrations does `getType` prefer a
typedef over a struct (via `is_user_base`). -/
theorem getType_getRealType_builtin_first (st st2 : ParserState)
    (h h2 : String) (i n : Nat) (r : Int)
    (hi : lookupBuiltinType h = some i)
    (hb1 : is_builtin_type h2 = none) (hb2 : is_builtin_base h2 = none)
    (htd : is_typedef st2 h2 = some r) :
    getType st h = (i : Int) + TYPE_SPACER
    ∧ getRealType (n + 1) st h =
        ⟨h, (i : Int) + TYPE_SPACER, internalNames.getD i "", "", "", -1⟩
    ∧ getType st2 h2 = r := by
  refine ⟨?_, ?_, ?_⟩
  · simp [getType, is_builtin_type, hi]
  · simp [getRealType, hi, tdDefault]
  · simp [getType, hb1, hb2, is_user_base, htd]

/-- C1 witness: `int32_t` is builtin index 5 and wins over the user typedef
of `stCol`; in `stCol2` the name `T` is both a user typedef and a user
struct and classifies as the typedef. -/
theorem getType_getRealType_builtin_first_witness :
    (lookupBuiltinType "int32_t" = some 5
      ∧ is_builtin_type "T" = none
      ∧ is_builtin_base "T" = none
      ∧ is_typedef stCol2 "T" = some 8192)
    ∧ (getType stCol "int32_t" = (5 : Int) + TYPE_SPACER
      ∧ getRealType (2 + 1) stCol "int32_t" =
          ⟨"int32_t", (5 : Int) + TYPE_SPACER, internalNames.getD 5 "",
            "", "", -1⟩
      ∧ getType stCol2 "T" = 8192) :=
  ⟨⟨by decide, by decide, by decide, by decide⟩,
   getType_getRealType_builtin_first stCol stCol2 "int32_t" "T" 5 2 8192
     (by decide) (by decide) (by decide) (by decide)⟩

/-- Helper: a fatal iteration makes the whole run fatal. -/
theorem ppRun_of_fatal (fs : String → Option String) (fuel : Nat)
    (fn path : String) (st : PPState) (h : ppIter fn st = .fatal) :
    (ppRun fs (fuel + 1) fn path st).2 = none := by
  simp [ppRun, h]

/-- Helper: `#else` with an empty conditional stack is a fatal iteration. -/
theorem ppIter_else_fatal (fn : String) (st : PPState) (r r2 : List Char)
    (hsrc : st.src = '#' :: r) (hread : readToken r = ("else", r2))
    (hstk : st.stack = []) : ppIter fn st = .fatal := by
  unfold ppIter
  rw [hsrc]
  simp only [hread, ppDirective, hstk]
  rfl

/-- Helper: `#endif` with an empty conditional stack is a fatal iteration. -/
theorem ppIter_endif_fatal (fn : String) (st : PPState) (r r2 : List Char)
    (hsrc : st.src = '#' :: r) (hread : readToken r = ("endif", r2))
    (hstk : st.stack = []) : ppIter fn st = .fatal := by
  unfold ppIter
  rw [hsrc]
  simp only [hread, ppDirective, hstk]
  rfl

/-- C4: the preprocessor run fails fatally, returning no output buffer, on
an `#else` directive with an empty conditional stack, on an `#endif`
directive with an empty conditional stack, and at end of input with a
non-empty conditional stack (unterminated `#ifdef`/`#ifndef`); the three
full `preprocess` calls exercise each failure concretely. -/
theorem ppRun_fatal_cases (fs : String → Option String) (fuel : Nat)
    (fn path : String) (st1 st2 st3 : PPState) (r r2 r3 r4 : List Char)
    (h1 : st1.src = '#' :: r) (h2 : readToken r = ("else", r2))
    (h3 : st1.stack = [])
    (h4 : st2.src = '#' :: r3) (h5 : readToken r3 = ("endif", r4))
    (h6 : st2.stack = [])
    (h7 : st3.src = []) (h8 : st3.stack ≠ []) :
    (ppRun fs (fuel + 1) fn path st1).2 = none
    ∧ (ppRun fs (fuel + 1) fn path st2).2 = none
    ∧ (ppRun fs (fuel + 1) fn path st3).2 = none
    ∧ (preprocess fsNone 20 "f" "" "#else\n" []).2 = none
    ∧ (preprocess fsNone 20 "f" "" "#endif\n" []).2 = none
    ∧ (preprocess fsNone 20 "f" "" "#ifdef A\nx\n" []).2 = none := by
  refine ⟨?_, ?_, ?_, by decide, by decide, by decide⟩
  · exact ppRun_of_fatal fs fuel fn path st1
      (ppIter_else_fatal fn st1 r r2 h1 h2 h3)
  · exact ppRun_of_fatal fs fuel fn path st2
      (ppIter_endif_fatal fn st2 r3 r4 h4 h5 h6)
  · have he : ppIter fn st3 = .eof := by
      unfold ppIter
      rw [h7]
    simp [ppRun, he, h8]

/-- C4 witness: the three fatal situations at concrete states. -/
theorem ppRun_fatal_cases_witness :
    ((⟨'#' :: "else\n".data, [], [], true, [], 0⟩ : PPState).src =
        '#' :: "else\n".data
      ∧ readToken "else\n".data = ("else", ['\n'])
      ∧ (⟨'#' :: "else\n".data, [], [], true, [], 0⟩ : PPState).stack = []
      ∧ (⟨'#' :: "endif\n".data, [], [], true, [], 0⟩ : PPState).src =
        '#' :: "endif\n".data
      ∧ readToken "endif\n".data = ("endif", ['\n'])
      ∧ (⟨'#' :: "endif\n".data, [], [], true, [], 0⟩ : PPState).stack = []
      ∧ (⟨[], [], [true], true, [], 0⟩ : PPState).src = []
      ∧ (⟨[], [], [true], true, [], 0⟩ : PPState).stack ≠ [])
    ∧ ((ppRun fsNone (3 + 1) "f" ""
          ⟨'#' :: "else\n".data, [], [], true, [], 0⟩).2 = none
      ∧ (ppRun fsNone (3 + 1) "f" ""
          ⟨'#' :: "endif\n".data, [], [], true, [], 0⟩).2 = none
      ∧ (ppRun fsNone (3 + 1) "f" ""
          ⟨[], [], [true], true, [], 0⟩).2 = none
      ∧ (preprocess fsNone 20 "f" "" "#else\n" []).2 = none
      ∧ (preprocess fsNone 20 "f" "" "#endif\n" []).2 = none
      ∧ (preprocess fsNone 20 "f" "" "#ifdef A\nx\n" []).2 = none) :=
  ⟨⟨rfl, by decide, rfl, rfl, by decide, rfl, rfl, by decide⟩,
   ppRun_fatal_cases fsNone 3 "f" ""
     ⟨'#' :: "else\n".data, [], [], true, [], 0⟩
     ⟨'#' :: "endif\n".data, [], [], true, [], 0⟩
     ⟨[], [], [true], true, [], 0⟩
     "else\n".data ['\n'] "endif\n".data ['\n']
     rfl (by decide) rfl rfl (by decide) rfl rfl (by decide)⟩

/-- Helper: the directive dispatch preserves the enabled-flag invariant. -/
theorem ppDirective_step_inv (st st' : PPState) (buf : String) (r2 : List Char)
    (h : ppDirective st buf r2 = .step st')
    (hInv : st.defOk = allTrue st.stack) :
    st'.defOk = allTrue st'.stack := by
  unfold ppDirective at h
  by_cases h1 : buf = "ifdef"
  · rw [if_pos h1] at h; cases h; rfl
  rw [if_neg h1] at h
  by_cases h2 : buf = "elif"
  · rw [if_pos h2] at h; cases h; exact hInv
  rw [if_neg h2] at h
  by_cases h3 : buf = "ifndef"
  · rw [if_pos h3] at h; cases h; rfl
  rw [if_neg h3] at h
  by_cases h4 : buf = "else"
  · rw [if_pos h4] at h
    rcases hstk : st.stack with _ | ⟨b, t⟩ <;> rw [hstk] at h <;>
      dsimp only [] at h
    · cases h
    · cases h; rfl
  rw [if_neg h4] at h
  by_cases h5 : buf = "endif"
  · rw [if_pos h5] at h
    rcases hstk : st.stack with _ | ⟨b, t⟩ <;> rw [hstk] at h <;>
      dsimp only [] at h
    · cases h
    · cases h; rfl
  rw [if_neg h5] at h
  by_cases h6 : buf = "if"
  · rw [if_pos h6] at h; cases h; exact hInv
  rw [if_neg h6] at h
  by_cases h7 : buf = "define"
  · rw [if_pos h7] at h; cases h; exact hInv
  rw [if_neg h7] at h
  by_cases h8 : buf = "undef"
  · rw [if_pos h8] at h; cases h; exact hInv
  rw [if_neg h8] at h
  by_cases h9 : buf = "pragma"
  · rw [if_pos h9] at h; cases h; exact hInv
  rw [if_neg h9] at h
  by_cases h10 : buf = "include"
  · rw [if_pos h10] at h
    by_cases hok : st.defOk = true
    · rw [if_pos hok] at h; cases h
    · rw [if_neg hok] at h; cases h; exact hInv
  rw [if_neg h10] at h
  cases h

/-- Helper: the character processing preserves the enabled-flag invariant. -/
theorem ppChar_step_inv (fn : String) (st st' : PPState) (c : Char)
    (rest : List Char) (h : ppChar fn st c rest = .step st')
    (hInv : st.defOk = allTrue st.stack) :
    st'.defOk = allTrue st'.stack := by
  unfold ppChar at h
  repeat' split at h
  all_goals cases h
  all_goals first | rfl | exact hInv

/-- Helper: one preprocessor iteration preserves the enabled-flag
invariant. -/
theorem ppIter_step_inv (fn : String) (st st' : PPState)
    (h : ppIter fn st = .step st') (hInv : st.defOk = allTrue st.stack) :
    st'.defOk = allTrue st'.stack := by
  unfold ppIter at h
  split at h
  · cases h
  · split at h
    · exact ppDirective_step_inv st st' _ _ h hInv
    · exact ppChar_step_inv fn st st' _ _ h hInv

/-- Helper: the character processing never requests an include. -/
theorem ppChar_no_inc (fn : String) (st st' : PPState) (c : Char)
    (rest : List Char) (f : String) : ppChar fn st c rest ≠ .inc f st' := by
  intro h
  unfold ppChar at h
  repeat' split at h
  all_goals cases h

/-- Helper: an include request keeps the stack and the enabled flag of the
current state. -/
theorem ppDirective_inc_inv (st st' : PPState) (buf : String)
    (r2 : List Char) (f : String) (h : ppDirective st buf r2 = .inc f st')
    (hInv : st.defOk = allTrue st.stack) :
    st'.defOk = allTrue st'.stack := by
  unfold ppDirective at h
  by_cases h1 : buf = "ifdef"
  · rw [if_pos h1] at h; cases h
  rw [if_neg h1] at h
  by_cases h2 : buf = "elif"
  · rw [if_pos h2] at h; cases h
  rw [if_neg h2] at h
  by_cases h3 : buf = "ifndef"
  · rw [if_pos h3] at h; cases h
  rw [if_neg h3] at h
  by_cases h4 : buf = "else"
  · rw [if_pos h4] at h
    rcases hstk : st.stack with _ | ⟨b, t⟩ <;> rw [hstk] at h <;>
      dsimp only [] at h <;> cases h
  rw [if_neg h4] at h
  by_cases h5 : buf = "endif"
  · rw [if_pos h5] at h
    rcases hstk : st.stack with _ | ⟨b, t⟩ <;> rw [hstk] at h <;>
      dsimp only [] at h <;> cases h
  rw [if_neg h5] at h
  by_cases h6 : buf = "if"
  · rw [if_pos h6] at h; cases h
  rw [if_neg h6] at h
  by_cases h7 : buf = "define"
  · rw [if_pos h7] at h; cases h
  rw [if_neg h7] at h
  by_cases h8 : buf = "undef"
  · rw [if_pos h8] at h; cases h
  rw [if_neg h8] at h
  by_cases h9 : buf = "pragma"
  · rw [if_pos h9] at h; cases h
  rw [if_neg h9] at h
  by_cases h10 : buf = "include"
  · rw [if_pos h10] at h
    by_cases hok : st.defOk = true
    · rw [if_pos hok] at h; cases h; exact hInv
    · rw [if_neg hok] at h; cases h
  rw [if_neg h10] at h
  cases h

/-- Helper: an include iteration preserves the enabled-flag invariant on the
continuation state. -/
theorem ppIter_inc_inv (fn : String) (st st' : PPState) (f : String)
    (h : ppIter fn st = .inc f st') (hInv : st.defOk = allTrue st.stack) :
    st'.defOk = allTrue st'.stack := by
  unfold ppIter at h
  split at h
  · cases h
  · split at h
    · exact ppDirective_inc_inv st st' _ _ f h hInv
    · exact absurd h (ppChar_no_inc fn st st' _ _ f)

/-- C3: at every point during preprocessing (every loop-iteration entry
state, those of recursively preprocessed includes included), the enabled
flag equals the AND of the whole conditional-compilation stack, provided
it does at the start — and it does at the `preprocess` entry state, where
the stack is empty and the flag is true. -/
theorem ppRun_enabled_eq_stack_and (fs : String → Option String)
    (fuel : Nat) :
    ∀ (fn path : String) (st : PPState), st.defOk = allTrue st.stack →
      ((ppRun fs fuel fn path st).1.all
        (fun s => s.defOk == allTrue s.stack)) = true := by
  induction fuel with
  | zero =>
    intro fn path st _
    simp [ppRun]
  | succ n ih =>
    intro fn path st hInv
    rcases hit : ppIter fn st with _ | _ | st' | ⟨f, st'⟩
    · rw [ppRun.eq_2]; simp [hit, hInv]
    · rw [ppRun.eq_2]; simp [hit, hInv]
    · have h2 := ih fn path st' (ppIter_step_inv fn st st' hit hInv)
      rcases hrun : ppRun fs n fn path st' with ⟨tr, r⟩
      rw [hrun] at h2
      rw [ppRun.eq_2]
      simp [hit, hrun, hInv, h2]
    · rcases hfs : fs f with _ | content
      · simp [ppRun, hit, hfs, hInv]
      · have hinit : (ppInit (minify content.data) st.defs).defOk =
            allTrue (ppInit (minify content.data) st.defs).stack := rfl
        have h1 := ih f (dirOf f) (ppInit (minify content.data) st.defs) hinit
        rcases hrun : ppRun fs n f (dirOf f)
            (ppInit (minify content.data) st.defs) with ⟨tr1, res⟩
        rw [hrun] at h1
        rcases res with _ | ⟨txt, defs'⟩
        · rw [ppRun.eq_2]; simp [hit, hfs, hrun, hInv, h1]
        · have hcont : ({ st' with
              outRev := txt.reverse ++ st'.outRev,
              defs := defs' } : PPState).defOk =
              allTrue ({ st' with
                outRev := txt.reverse ++ st'.outRev,
                defs := defs' } : PPState).stack :=
            ppIter_inc_inv fn st st' f hit hInv
          have h2 := ih fn path _ hcont
          rcases hrun2 : ppRun fs n fn path
              { st' with
                outRev := txt.reverse ++ st'.outRev,
                defs := defs' } with ⟨tr2, r2⟩
          rw [hrun2] at h2
          rw [ppRun.eq_2]
          simp [hit, hfs, hrun, hrun2, hInv, h1, h2]

/-- C3 witness: the invariant holds at every iteration state of a concrete
run through `#ifdef`/`#else`/`#endif`. -/
theorem ppRun_enabled_eq_stack_and_witness :
    (ppInit (minify "#ifdef A\nx\n#else\ny\n#endif\nz\n".data) []).defOk =
      allTrue (ppInit (minify "#ifdef A\nx\n#else\ny\n#endif\nz\n".data) []).stack ∧
    ((ppRun fsNone 32 "f" "."
        (ppInit (minify "#ifdef A\nx\n#else\ny\n#endif\nz\n".data) [])).1.all
      (fun s => s.defOk == allTrue s.stack)) = true :=
  ⟨by decide, ppRun_enabled_eq_stack_and fsNone 32 "f" "."
    (ppInit (minify "#ifdef A\nx\n#else\ny\n#endif\nz\n".data) []) (by decide)⟩

/-- Unfolding of `minifyM` at an ordinary character. -/
theorem minifyM_normal_cons (c : Char) (r : List Char)
    (h1 : ¬(c = '/' ∧ r.headD nulChar = '/'))
    (h2 : ¬(c = '/' ∧ r.headD nulChar = '*'))
    (h3 : c ≠ qChar) (h4 : c ≠ '\r') (h5 : c ≠ '\t')
    (h6 : ¬(c = ' ' ∧ r.headD nulChar = ' '))
    (h7 : ¬(c = '\n' ∧ r.headD nulChar = '\n')) :
    minifyM .normal (c :: r) = c :: minifyM .normal r := by
  simp only [minifyM]
  rw [if_neg h1, if_neg h2, if_neg h3, if_neg h4, if_neg h5, if_neg h6,
    if_neg h7]

/-- Unfolding of `minifyM` at a space followed by a space. -/
theorem minifyM_skip_spc (r : List Char) (h : r.headD nulChar = ' ') :
    minifyM .normal (' ' :: r) = minifyM .normal r := by
  simp only [minifyM]
  rw [if_neg (by simp), if_neg (by simp), if_neg (by decide),
    if_neg (by decide), if_neg (by decide), if_pos ⟨trivial, h⟩]

/-- Unfolding of `minifyM` at a space not followed by a space. -/
theorem minifyM_keep_spc (r : List Char) (h : r.headD nulChar ≠ ' ') :
    minifyM .normal (' ' :: r) = ' ' :: minifyM .normal r :=
  minifyM_normal_cons ' ' r (fun hx => absurd hx.1 (by decide))
    (fun hx => absurd hx.1 (by decide)) (by decide) (by decide) (by decide)
    (fun hx => h hx.2) (fun hx => absurd hx.1 (by decide))

/-- Unfolding of `minifyM` at a newline followed by a newline. -/
theorem minifyM_skip_nl (r : List Char) (h : r.headD nulChar = '\n') :
    minifyM .normal ('\n' :: r) = minifyM .normal r := by
  simp only [minifyM]
  rw [if_neg (by simp), if_neg (by simp), if_neg (by decide),
    if_neg (by decide), if_neg (by decide), if_neg (by simp),
    if_pos ⟨trivial, h⟩]

/-- Unfolding of `minifyM` at a newline not followed by a newline. -/
theorem minifyM_keep_nl (r : List Char) (h : r.headD nulChar ≠ '\n') :
    minifyM .normal ('\n' :: r) = '\n' :: minifyM .normal r :=
  minifyM_normal_cons '\n' r (fun hx => absurd hx.1 (by decide))
    (fun hx => absurd hx.1 (by decide)) (by decide) (by decide) (by decide)
    (fun hx => absurd hx.1 (by decide)) (fun hx => h hx.2)

/-- Helper: `headD` versus `head?` on a cons. -/
theorem headD_cons (a : Char) (t : List Char) (d : Char) :
    (a :: t).headD d = a := rfl

/-- On plain text, minification preserves the first character. -/
theorem minify_headPres (l : List Char)
    (hp : ∀ c ∈ l, plainChar c = true) :
    (minifyM .normal l).head? = l.head? := by
  induction l with
  | nil => simp [minifyM]
  | cons c r ih =>
    have hpr : ∀ x ∈ r, plainChar x = true :=
      fun x hx => hp x (List.mem_cons_of_mem _ hx)
    have hpc : c ≠ '/' ∧ c ≠ '\t' ∧ c ≠ '\r' ∧ c ≠ qChar := by
      have := hp c (List.mem_cons_self c r)
      simp [plainChar] at this
      exact ⟨this.1.1.1, this.1.1.2, this.1.2, this.2⟩
    by_cases hs : c = ' '
    · subst hs
      by_cases hh : r.headD nulChar = ' '
      · rw [minifyM_skip_spc r hh, ih hpr]
        cases r with
        | nil => exact absurd hh (by decide)
        | cons a t => rw [headD_cons] at hh; simp [hh]
      · rw [minifyM_keep_spc r hh]
        rfl
    · by_cases hn : c = '\n'
      · subst hn
        by_cases hh : r.headD nulChar = '\n'
        · rw [minifyM_skip_nl r hh, ih hpr]
          cases r with
          | nil => exact absurd hh (by decide)
          | cons a t => rw [headD_cons] at hh; simp [hh]
        · rw [minifyM_keep_nl r hh]
          rfl
      · rw [minifyM_normal_cons c r (fun hx => hpc.1 hx.1)
          (fun hx => hpc.1 hx.1) hpc.2.2.2 hpc.2.2.1 hpc.2.1
          (fun hx => hs hx.1) (fun hx => hn hx.1)]
        rfl

/-- On plain text, minification only keeps input characters. -/
theorem minify_mem (l : List Char)
    (hp : ∀ c ∈ l, plainChar c = true) :
    ∀ x ∈ minifyM .normal l, x ∈ l := by
  induction l with
  | nil => simp [minifyM]
  | cons c r ih =>
    have hpr : ∀ x ∈ r, plainChar x = true :=
      fun x hx => hp x (List.mem_cons_of_mem _ hx)
    have hpc : c ≠ '/' ∧ c ≠ '\t' ∧ c ≠ '\r' ∧ c ≠ qChar := by
      have := hp c (List.mem_cons_self c r)
      simp [plainChar] at this
      exact ⟨this.1.1.1, this.1.1.2, this.1.2, this.2⟩
    by_cases hs : c = ' '
    · subst hs
      by_cases hh : r.headD nulChar = ' '
      · rw [minifyM_skip_spc r hh]
        exact fun x hx => List.mem_cons_of_mem _ (ih hpr x hx)
      · rw [minifyM_keep_spc r hh]
        intro x hx
        rcases List.mem_cons.mp hx with h1 | h2
        · exact h1 ▸ List.mem_cons_self _ _
        · exact List.mem_cons_of_mem _ (ih hpr x h2)
    · by_cases hn : c = '\n'
      · subst hn
        by_cases hh : r.headD nulChar = '\n'
        · rw [minifyM_skip_nl r hh]
          exact fun x hx => List.mem_cons_of_mem _ (ih hpr x hx)
        · rw [minifyM_keep_nl r hh]
          intro x hx
          rcases List.mem_cons.mp hx with h1 | h2
          · exact h1 ▸ List.mem_cons_self _ _
          · exact List.mem_cons_of_mem _ (ih hpr x h2)
      · rw [minifyM_normal_cons c r (fun hx => hpc.1 hx.1)
          (fun hx => hpc.1 hx.1) hpc.2.2.2 hpc.2.2.1 hpc.2.1
          (fun hx => hs hx.1) (fun hx => hn hx.1)]
        intro x hx
        rcases List.mem_cons.mp hx with h1 | h2
        · exact h1 ▸ List.mem_cons_self _ _
        · exact List.mem_cons_of_mem _ (ih hpr x h2)

/-- `noDouble` restricted to a tail. -/
theorem noDouble_tail (a : Char) (t : List Char)
    (h : noDouble (a :: t) = true) : noDouble t = true := by
  cases t with
  | nil => rfl
  | cons b u =>
    have := h
    simp only [noDouble, Bool.and_eq_true] at this
    exact this.2

/-- On plain text, minification never leaves two adjacent spaces or two
adjacent newlines. -/
theorem minify_noDouble (l : List Char)
    (hp : ∀ c ∈ l, plainChar c = true) :
    noDouble (minifyM .normal l) = true := by
  induction l with
  | nil => rfl
  | cons c r ih =>
    have hpr : ∀ x ∈ r, plainChar x = true :=
      fun x hx => hp x (List.mem_cons_of_mem _ hx)
    have hpc : c ≠ '/' ∧ c ≠ '\t' ∧ c ≠ '\r' ∧ c ≠ qChar := by
      have := hp c (List.mem_cons_self c r)
      simp [plainChar] at this
      exact ⟨this.1.1.1, this.1.1.2, this.1.2, this.2⟩
    by_cases hs : c = ' '
    · subst hs
      by_cases hh : r.headD nulChar = ' '
      · rw [minifyM_skip_spc r hh]
        exact ih hpr
      · rw [minifyM_keep_spc r hh]
        have hhd := minify_headPres r hpr
        rcases hm : minifyM .normal r with _ | ⟨a, t⟩
        · rfl
        · rw [hm] at hhd
          have ha : a ≠ ' ' := by
            intro he
            cases r with
            | nil => simp at hhd
            | cons b u =>
              rw [headD_cons] at hh
              simp at hhd
              exact hh (hhd ▸ he ▸ rfl)
          have ihm : noDouble (a :: t) = true := hm ▸ ih hpr
          simp only [noDouble, Bool.and_eq_true]
          refine ⟨?_, ihm⟩
          simp [ha]
    · by_cases hn : c = '\n'
      · subst hn
        by_cases hh : r.headD nulChar = '\n'
        · rw [minifyM_skip_nl r hh]
          exact ih hpr
        · rw [minifyM_keep_nl r hh]
          have hhd := minify_headPres r hpr
          rcases hm : minifyM .normal r with _ | ⟨a, t⟩
          · rfl
          · rw [hm] at hhd
            have ha : a ≠ '\n' := by
              intro he
              cases r with
              | nil => simp at hhd
              | cons b u =>
                rw [headD_cons] at hh
                simp at hhd
                exact hh (hhd ▸ he ▸ rfl)
            have ihm : noDouble (a :: t) = true := hm ▸ ih hpr
            simp only [noDouble, Bool.and_eq_true]
            refine ⟨?_, ihm⟩
            simp [ha]
      · rw [minifyM_normal_cons c r (fun hx => hpc.1 hx.1)
          (fun hx => hpc.1 hx.1) hpc.2.2.2 hpc.2.2.1 hpc.2.1
          (fun hx => hs hx.1) (fun hx => hn hx.1)]
        rcases hm : minifyM .normal r with _ | ⟨a, t⟩
        · rfl
        · have ihm : noDouble (a :: t) = true := hm ▸ ih hpr
          simp only [noDouble, Bool.and_eq_true]
          refine ⟨?_, ihm⟩
          simp [hs, hn]

/-- Minification is the identity on plain text without adjacent blanks. -/
theorem minify_id_of_noDouble (l : List Char)
    (hp : ∀ c ∈ l, plainChar c = true) (hd : noDouble l = true) :
    minifyM .normal l = l := by
  induction l with
  | nil => rfl
  | cons c r ih =>
    have hpr : ∀ x ∈ r, plainChar x = true :=
      fun x hx => hp x (List.mem_cons_of_mem _ hx)
    have hdr : noDouble r = true := noDouble_tail c r hd
    have hpc : c ≠ '/' ∧ c ≠ '\t' ∧ c ≠ '\r' ∧ c ≠ qChar := by
      have := hp c (List.mem_cons_self c r)
      simp [plainChar] at this
      exact ⟨this.1.1.1, this.1.1.2, this.1.2, this.2⟩
    by_cases hs : c = ' '
    · subst hs
      have hh : r.headD nulChar ≠ ' ' := by
        cases r with
        | nil => decide
        | cons b u =>
          rw [headD_cons]
          simp only [noDouble, Bool.and_eq_true] at hd
          intro he
          simp [he] at hd
      rw [minifyM_keep_spc r hh, ih hpr hdr]
    · by_cases hn : c = '\n'
      · subst hn
        have hh : r.headD nulChar ≠ '\n' := by
          cases r with
          | nil => decide
          | cons b u =>
            rw [headD_cons]
            simp only [noDouble, Bool.and_eq_true] at hd
            intro he
            simp [he] at hd
        rw [minifyM_keep_nl r hh, ih hpr hdr]
      · rw [minifyM_normal_cons c r (fun hx => hpc.1 hx.1)
          (fun hx => hpc.1 hx.1) hpc.2.2.2 hpc.2.2.1 hpc.2.1
          (fun hx => hs hx.1) (fun hx => hn hx.1), ih hpr hdr]

/-- C9 (counterexample): minification is not idempotent — removing the block
comment from `"a /**/ b"` leaves two adjacent spaces, which a second pass
collapses. -/
theorem minify_not_idempotent_cex :
    minify "a /**/ b".data = "a  b".data ∧
    minify (minify "a /**/ b".data) ≠ minify "a /**/ b".data := by
  decide

/-- C9 (amended): minification is idempotent on text where only the
space- and blank-line-collapsing rules can act — text free of comment
slashes, tabs, carriage returns and string quotes; on general input a
single pass need not be idempotent (comment stripping and tab conversion
can leave double blanks). -/
theorem minify_idempotent_on_plain_text (l : List Char)
    (hp : ∀ c ∈ l, plainChar c = true) :
    minify (minify l) = minify l :=
  minify_id_of_noDouble (minifyM .normal l)
    (fun x hx => hp x (minify_mem l hp x hx))
    (minify_noDouble l hp)

/-- C9 witness: idempotence on a concrete plain text. -/
theorem minify_idempotent_on_plain_text_witness :
    (∀ c ∈ "a b\n\nc d".data, plainChar c = true) ∧
    minify (minify "a b\n\nc d".data) = minify "a b\n\nc d".data :=
  ⟨by decide, minify_idempotent_on_plain_text "a b\n\nc d".data (by decide)⟩

/-- Facts about alphanumeric characters used by the substitution schema. -/
theorem alnum_ne (c : Char) (hc : c.isAlphanum = true) :
    c ≠ '/' ∧ c ≠ qChar ∧ c ≠ '\r' ∧ c ≠ '\t' ∧ c ≠ ' ' ∧ c ≠ '\n' ∧
    c ≠ '(' ∧ c ≠ ')' ∧ c ≠ bsChar ∧ c ≠ nulChar := by
  refine ⟨?_, ?_, ?_, ?_, ?_, ?_, ?_, ?_, ?_, ?_⟩ <;>
    (intro he; rw [he] at hc; exact absurd hc (by decide))

/-- Minification passes an alphanumeric run through unchanged. -/
theorem minify_alnum_append (w l : List Char)
    (hw : ∀ c ∈ w, c.isAlphanum = true) :
    minifyM .normal (w ++ l) = w ++ minifyM .normal l := by
  induction w with
  | nil => rfl
  | cons c w' ih =>
    have hc := hw c (List.mem_cons_self c w')
    have hne := alnum_ne c hc
    rw [List.cons_append,
      minifyM_normal_cons c (w' ++ l) (fun hx => hne.1 hx.1)
        (fun hx => hne.1 hx.1) hne.2.1 hne.2.2.1 hne.2.2.2.1
        (fun hx => hne.2.2.2.2.1 hx.1) (fun hx => hne.2.2.2.2.2.1 hx.1),
      ih (fun x hx => hw x (List.mem_cons_of_mem _ hx)), List.cons_append]

/-- `readBlockAux` reading a newline-terminated value consisting of
alphanumeric characters. -/
theorem rbAux_alnum (w : List Char) (hw : ∀ c ∈ w, c.isAlphanum = true) :
    ∀ (acc : List Char) (prev : Char) (tail : List Char),
      readBlockAux nulChar '\n' false .norm 0 0 prev acc (w ++ '\n' :: tail) =
        (acc.reverse ++ w, tail) := by
  induction w with
  | nil =>
    intro acc prev tail
    simp only [List.nil_append, List.append_nil]
    rfl
  | cons c w' ih =>
    intro acc prev tail
    have hc := hw c (List.mem_cons_self c w')
    have hne := alnum_ne c hc
    rw [List.cons_append]
    simp only [readBlockAux]
    rw [if_neg hne.2.1]
    rw [if_neg (fun hx => hne.2.2.2.2.2.2.2.2.1 hx.1)]
    rw [if_neg hne.2.2.2.2.2.2.1]
    rw [if_neg hne.2.2.2.2.2.2.2.1]
    rw [if_neg (fun hx => hne.2.2.2.2.2.1 hx.1)]
    rw [if_neg (by simp : ¬(nulChar ≠ nulChar ∧ ('\n' : Char) ≠ nulChar))]
    rw [ih (fun x hx => hw x (List.mem_cons_of_mem _ hx)) (c :: acc) c tail]
    simp

/-- Reading the newline-terminated define value `v` (preceded by the blank
after the macro name). -/
theorem c2_readValue (v : String) (hv : ∀ c ∈ v.data, c.isAlphanum = true) :
    readBlock nulChar '\n' (' ' :: (v.data ++ '\n' :: c2T)) = (v.data, c2T) := by
  rcases hvd : v.data with _ | ⟨c0, v'⟩
  · rfl
  · have hc0 : c0.isAlphanum = true := by
      refine hv c0 ?_
      rw [hvd]
      exact List.mem_cons_self _ _
    have hv' : ∀ c ∈ c0 :: v', c.isAlphanum = true := by
      intro c hc
      refine hv c ?_
      rw [hvd]
      exact hc
    have hne := alnum_ne c0 hc0
    unfold readBlock
    rw [List.dropWhile_cons, if_pos (by decide), List.cons_append,
      List.dropWhile_cons, if_neg (by simp [hne.2.2.2.2.1])]
    show (if c0 = nulChar then
        readBlockAux nulChar '\n' (decide (nulChar = qChar)) EMode.norm
          (if nulChar = '(' then 1 else 0) 1 nulChar [] (v' ++ '\n' :: c2T)
      else readBlockAux nulChar '\n' false EMode.norm 0 0 nulChar []
        (c0 :: (v' ++ '\n' :: c2T))) = (c0 :: v', c2T)
    rw [if_neg hne.2.2.2.2.2.2.2.2.2, ← List.cons_append,
      rbAux_alnum (c0 :: v') hv' [] nulChar c2T]
    rfl

/-- Minification of an ordinary character. -/
theorem minify_plainstep (c : Char) (r : List Char) (h1 : c ≠ '/')
    (h2 : c ≠ qChar) (h3 : c ≠ '\r') (h4 : c ≠ '\t') (h5 : c ≠ ' ')
    (h6 : c ≠ '\n') :
    minifyM .normal (c :: r) = c :: minifyM .normal r :=
  minifyM_normal_cons c r (fun hx => h1 hx.1) (fun hx => h1 hx.1) h2 h3 h4
    (fun hx => h5 hx.1) (fun hx => h6 hx.1)

/-- Minification leaves the substitution schema unchanged. -/
theorem c2_minify_input (v : String)
    (hv : ∀ c ∈ v.data, c.isAlphanum = true) :
    minify (("#define FOO " ++ v ++ "\nint32_t FOO;\n").data) = c2M v := by
  have hdata : ("#define FOO " ++ v ++ "\nint32_t FOO;\n").data =
      '#' :: 'd' :: 'e' :: 'f' :: 'i' :: 'n' :: 'e' :: ' ' :: 'F' :: 'O' ::
        'O' :: ' ' :: (v.data ++ '\n' :: c2T) := by
    show ("#define FOO ".data ++ v.data) ++ "\nint32_t FOO;\n".data = _
    rw [List.append_assoc]
    rfl
  have hsuf : minifyM .normal ('\n' :: c2T) = '\n' :: c2T := by decide
  rw [hdata]
  unfold minify
  rw [minify_plainstep '#' _ (by decide) (by decide) (by decide) (by decide)
    (by decide) (by decide)]
  rw [minify_plainstep 'd' _ (by decide) (by decide) (by decide) (by decide)
    (by decide) (by decide)]
  rw [minify_plainstep 'e' _ (by decide) (by decide) (by decide) (by decide)
    (by decide) (by decide)]
  rw [minify_plainstep 'f' _ (by decide) (by decide) (by decide) (by decide)
    (by decide) (by decide)]
  rw [minify_plainstep 'i' _ (by decide) (by decide) (by decide) (by decide)
    (by decide) (by decide)]
  rw [minify_plainstep 'n' _ (by decide) (by decide) (by decide) (by decide)
    (by decide) (by decide)]
  rw [minify_plainstep 'e' _ (by decide) (by decide) (by decide) (by decide)
    (by decide) (by decide)]
  rw [minifyM_keep_spc _ (by rw [headD_cons]; decide)]
  rw [minify_plainstep 'F' _ (by decide) (by decide) (by decide) (by decide)
    (by decide) (by decide)]
  rw [minify_plainstep 'O' _ (by decide) (by decide) (by decide) (by decide)
    (by decide) (by decide)]
  rw [minify_plainstep 'O' _ (by decide) (by decide) (by decide) (by decide)
    (by decide) (by decide)]
  rcases hvd : v.data with _ | ⟨c0, v'⟩
  · rw [List.nil_append]
    rw [minifyM_keep_spc ('\n' :: c2T) (by rw [headD_cons]; decide)]
    rw [hsuf]
    show _ = "#define FOO ".data ++ (v.data ++ '\n' :: c2T)
    rw [hvd]
    rfl
  · have hc0 : c0.isAlphanum = true := by
      refine hv c0 ?_
      rw [hvd]
      exact List.mem_cons_self _ _
    have hv' : ∀ c ∈ c0 :: v', c.isAlphanum = true := by
      intro c hc
      refine hv c ?_
      rw [hvd]
      exact hc
    have hne := alnum_ne c0 hc0
    rw [List.cons_append]
    rw [minifyM_keep_spc (c0 :: (v' ++ '\n' :: c2T))
      (by rw [headD_cons]; exact hne.2.2.2.2.1)]
    rw [← List.cons_append, minify_alnum_append (c0 :: v') _ hv', hsuf]
    show _ = "#define FOO ".data ++ (v.data ++ '\n' :: c2T)
    rw [hvd]
    rfl

/-- The `#define` arm of the directive dispatch, with the scanner calls
exposed. -/
theorem ppDirective_define (st : PPState) (r2 : List Char) :
    ppDirective st "define" r2 =
      .step { st with
        src := (if (readName r2).2.headD nulChar = '\n'
            then (([] : List Char), (readName r2).2.drop 1)
            else readBlock nulChar '\n' (readName r2).2).2,
        defs := if st.defOk
          then insertDef (readName r2).1
            (String.mk (if (readName r2).2.headD nulChar = '\n'
              then (([] : List Char), (readName r2).2.drop 1)
              else readBlock nulChar '\n' (readName r2).2).1) st.defs
          else st.defs } := by
  unfold ppDirective
  rw [if_neg (by decide), if_neg (by decide), if_neg (by decide),
    if_neg (by decide), if_neg (by decide), if_neg (by decide), if_pos rfl]

/-- The first iteration of the preprocessor on the substitution schema
performs the `#define`. -/
theorem c2_iter1 (v : String) (hv : ∀ c ∈ v.data, c.isAlphanum = true) :
    ppIter "f" (ppInit (c2M v) []) = .step (c2st1 v) := by
  have h1 : ppIter "f" (ppInit (c2M v) []) =
      ppDirective (ppInit (c2M v) []) "define"
        (' ' :: 'F' :: 'O' :: 'O' :: ' ' :: (v.data ++ '\n' :: c2T)) := rfl
  rw [h1, ppDirective_define]
  show PPAct.step
      ⟨(readBlock nulChar '\n' (' ' :: (v.data ++ '\n' :: c2T))).2, [], [],
        true,
        insertDef "FOO"
          (String.mk
            (readBlock nulChar '\n' (' ' :: (v.data ++ '\n' :: c2T))).1) [],
        0⟩ = PPAct.step (c2st1 v)
  rw [c2_readValue v hv]
  rfl

/-- An ordinary-step iteration only changes which state the rest of the
run starts from. -/
theorem ppRun_snd_step (fs : String → Option String) (n : Nat)
    (fn path : String) (st st' : PPState) (h : ppIter fn st = .step st') :
    (ppRun fs (Nat.succ n) fn path st).2 = (ppRun fs n fn path st').2 := by
  rw [ppRun.eq_2, h]

/-- At end of input with an empty conditional stack the run returns the
accumulated output and the final define table. -/
theorem ppRun_snd_eof (fs : String → Option String) (n : Nat)
    (fn path : String) (st : PPState) (h : ppIter fn st = .eof)
    (hs : st.stack = []) :
    (ppRun fs (Nat.succ n) fn path st).2 =
      some (st.outRev.reverse, st.defs) := by
  rw [ppRun.eq_2, h]
  simp [hs]

/-- Refreshing `__FILE__`/`__LINE__` on line 0 of the schema. -/
theorem insertDef_fresh0 (v : String) :
    insertDef "__LINE__" (toString 0)
      (insertDef "__FILE__"
        (String.mk [qChar] ++ "f" ++ ":" ++ toString 0 ++ String.mk [qChar])
        [("FOO", v)])
      = defsAt v "\"f:0\"" "0" := rfl

/-- Refreshing `__FILE__`/`__LINE__` on line 0 overwrites the previous
values. -/
theorem insertDef_defsAt0 (v fv lv : String) :
    insertDef "__LINE__" (toString 0)
      (insertDef "__FILE__"
        (String.mk [qChar] ++ "f" ++ ":" ++ toString 0 ++ String.mk [qChar])
        (defsAt v fv lv))
      = defsAt v "\"f:0\"" "0" := rfl

/-- Refreshing `__FILE__`/`__LINE__` when the line counter reaches 1. -/
theorem insertDef_defsAt1 (v fv lv : String) :
    insertDef "__LINE__" (toString 1)
      (insertDef "__FILE__"
        (String.mk [qChar] ++ "f" ++ ":" ++ toString 1 ++ String.mk [qChar])
        (defsAt v fv lv))
      = defsAt v "\"f:1\"" "1" := rfl

/-- The iteration that writes `;` after `FOO`: the lookback finds `FOO` in
the define table and splices the value, or deletes the run when the value's
first character is `0`. -/
theorem c2_iter12 (v : String) :
    ppIter "f" (c2mid v [';', '\n'] ['O', 'O', 'F', ' ', 't', '_', '2', '3', 't', 'n', 'i'] "\"f:0\"" "0" 0)
      = .step (c2mid v ['\n']
          (';' :: ((if v.data.headD nulChar = '0' then []
              else v.data.reverse) ++ [' ', 't', '_', '2', '3', 't', 'n', 'i']))
          "\"f:0\"" "0" 0) := by
  have h : ppIter "f" (c2mid v [';', '\n'] ['O', 'O', 'F', ' ', 't', '_', '2', '3', 't', 'n', 'i'] "\"f:0\"" "0" 0)
      = PPAct.step ⟨['\n'],
          substitute ';' ['O', 'O', 'F', ' ', 't', '_', '2', '3', 't', 'n', 'i']
            (insertDef "__LINE__" (toString 0)
            (insertDef "__FILE__"
              (String.mk [qChar] ++ "f" ++ ":" ++ toString 0 ++ String.mk [qChar])
              (defsAt v "\"f:0\"" "0"))),
          [], true,
          insertDef "__LINE__" (toString 0)
            (insertDef "__FILE__"
              (String.mk [qChar] ++ "f" ++ ":" ++ toString 0 ++ String.mk [qChar])
              (defsAt v "\"f:0\"" "0")), 0⟩ := rfl
  rw [h, insertDef_defsAt0]
  have hsub : substitute ';' ['O', 'O', 'F', ' ', 't', '_', '2', '3', 't', 'n', 'i']
        (defsAt v "\"f:0\"" "0")
      = if v.data.headD nulChar = '0'
        then ';' :: List.drop 3 ['O', 'O', 'F', ' ', 't', '_', '2', '3', 't', 'n', 'i']
        else ';' :: (v.data.reverse ++
          List.drop 3 ['O', 'O', 'F', ' ', 't', '_', '2', '3', 't', 'n', 'i']) := rfl
  rw [hsub]
  by_cases hv0 : v.data.headD nulChar = '0'
  · rw [if_pos hv0, if_pos hv0]
    rfl
  · rw [if_neg hv0, if_neg hv0]
    rfl

/-- Running the full preprocessor on the substitution schema: the define is
recorded, `int32_t ` is copied, the lookback at `;` replaces `FOO` by the
bound value or deletes it when the value starts with `0`, and `;` and the
newline are copied. -/
theorem c2_run (v : String) (hv : ∀ c ∈ v.data, c.isAlphanum = true) :
    (preprocess fsNone 20 "f" ""
        ("#define FOO " ++ v ++ "\nint32_t FOO;\n") []).2
      = some ("int32_t ".data ++
          ((if v.data.headD nulChar = '0' then [] else v.data) ++
            ";\n".data),
        defsAt v "\"f:1\"" "1") := by
  have ha2 : ppIter "f" (c2st1 v)
      = PPAct.step ⟨"nt32_t FOO;\n".data, ['i'], [], true,
          insertDef "__LINE__" (toString 0)
            (insertDef "__FILE__"
              (String.mk [qChar] ++ "f" ++ ":" ++ toString 0 ++
                String.mk [qChar])
              [("FOO", v)]), 0⟩ := rfl
  have h2 : ppIter "f" (c2st1 v)
      = .step (c2mid v "nt32_t FOO;\n".data ['i'] "\"f:0\"" "0" 0) := by
    rw [ha2, insertDef_fresh0]
    rfl
  have ha3 : ppIter "f" (c2mid v "nt32_t FOO;\n".data ['i'] "\"f:0\"" "0" 0)
      = PPAct.step ⟨"t32_t FOO;\n".data, ['n', 'i'], [], true,
          insertDef "__LINE__" (toString 0)
            (insertDef "__FILE__"
              (String.mk [qChar] ++ "f" ++ ":" ++ toString 0 ++
                String.mk [qChar])
              (defsAt v "\"f:0\"" "0")), 0⟩ := rfl
  have h3 : ppIter "f" (c2mid v "nt32_t FOO;\n".data ['i'] "\"f:0\"" "0" 0)
      = .step (c2mid v "t32_t FOO;\n".data ['n', 'i'] "\"f:0\"" "0" 0) := by
    rw [ha3, insertDef_defsAt0]
    rfl
  have ha4 : ppIter "f" (c2mid v "t32_t FOO;\n".data ['n', 'i'] "\"f:0\"" "0" 0)
      = PPAct.step ⟨"32_t FOO;\n".data, ['t', 'n', 'i'], [], true,
          insertDef "__LINE__" (toString 0)
            (insertDef "__FILE__"
              (String.mk [qChar] ++ "f" ++ ":" ++ toString 0 ++
                String.mk [qChar])
              (defsAt v "\"f:0\"" "0")), 0⟩ := rfl
  have h4 : ppIter "f" (c2mid v "t32_t FOO;\n".data ['n', 'i'] "\"f:0\"" "0" 0)
      = .step (c2mid v "32_t FOO;\n".data ['t', 'n', 'i'] "\"f:0\"" "0" 0) := by
    rw [ha4, insertDef_defsAt0]
    rfl
  have ha5 : ppIter "f" (c2mid v "32_t FOO;\n".data ['t', 'n', 'i'] "\"f:0\"" "0" 0)
      = PPAct.step ⟨"2_t FOO;\n".data, ['3', 't', 'n', 'i'], [], true,
          insertDef "__LINE__" (toString 0)
            (insertDef "__FILE__"
              (String.mk [qChar] ++ "f" ++ ":" ++ toString 0 ++
                String.mk [qChar])
              (defsAt v "\"f:0\"" "0")), 0⟩ := rfl
  have h5 : ppIter "f" (c2mid v "32_t FOO;\n".data ['t', 'n', 'i'] "\"f:0\"" "0" 0)
      = .step (c2mid v "2_t FOO;\n".data ['3', 't', 'n', 'i'] "\"f:0\"" "0" 0) := by
    rw [ha5, insertDef_defsAt0]
    rfl
  have ha6 : ppIter "f" (c2mid v "2_t FOO;\n".data ['3', 't', 'n', 'i'] "\"f:0\"" "0" 0)
      = PPAct.step ⟨"_t FOO;\n".data, ['2', '3', 't', 'n', 'i'], [], true,
          insertDef "__LINE__" (toString 0)
            (insertDef "__FILE__"
              (String.mk [qChar] ++ "f" ++ ":" ++ toString 0 ++
                String.mk [qChar])
              (defsAt v "\"f:0\"" "0")), 0⟩ := rfl
  have h6 : ppIter "f" (c2mid v "2_t FOO;\n".data ['3', 't', 'n', 'i'] "\"f:0\"" "0" 0)
      = .step (c2mid v "_t FOO;\n".data ['2', '3', 't', 'n', 'i'] "\"f:0\"" "0" 0) := by
    rw [ha6, insertDef_defsAt0]
    rfl
  have ha7 : ppIter "f" (c2mid v "_t FOO;\n".data ['2', '3', 't', 'n', 'i'] "\"f:0\"" "0" 0)
      = PPAct.step ⟨"t FOO;\n".data, ['_', '2', '3', 't', 'n', 'i'], [], true,
          insertDef "__LINE__" (toString 0)
            (insertDef "__FILE__"
              (String.mk [qChar] ++ "f" ++ ":" ++ toString 0 ++
                String.mk [qChar])
              (defsAt v "\"f:0\"" "0")), 0⟩ := rfl
  have h7 : ppIter "f" (c2mid v "_t FOO;\n".data ['2', '3', 't', 'n', 'i'] "\"f:0\"" "0" 0)
      = .step (c2mid v "t FOO;\n".data ['_', '2', '3', 't', 'n', 'i'] "\"f:0\"" "0" 0) := by
    rw [ha7, insertDef_defsAt0]
    rfl
  have ha8 : ppIter "f" (c2mid v "t FOO;\n".data ['_', '2', '3', 't', 'n', 'i'] "\"f:0\"" "0" 0)
      = PPAct.step ⟨" FOO;\n".data, ['t', '_', '2', '3', 't', 'n', 'i'], [], true,
          insertDef "__LINE__" (toString 0)
            (insertDef "__FILE__"
              (String.mk [qChar] ++ "f" ++ ":" ++ toString 0 ++
                String.mk [qChar])
              (defsAt v "\"f:0\"" "0")), 0⟩ := rfl
  have h8 : ppIter "f" (c2mid v "t FOO;\n".data ['_', '2', '3', 't', 'n', 'i'] "\"f:0\"" "0" 0)
      = .step (c2mid v " FOO;\n".data ['t', '_', '2', '3', 't', 'n', 'i'] "\"f:0\"" "0" 0) := by
    rw [ha8, insertDef_defsAt0]
    rfl
  have ha9 : ppIter "f" (c2mid v " FOO;\n".data ['t', '_', '2', '3', 't', 'n', 'i'] "\"f:0\"" "0" 0)
      = PPAct.step ⟨"FOO;\n".data, [' ', 't', '_', '2', '3', 't', 'n', 'i'], [], true,
          insertDef "__LINE__" (toString 0)
            (insertDef "__FILE__"
              (String.mk [qChar] ++ "f" ++ ":" ++ toString 0 ++
                String.mk [qChar])
              (defsAt v "\"f:0\"" "0")), 0⟩ := rfl
  have h9 : ppIter "f" (c2mid v " FOO;\n".data ['t', '_', '2', '3', 't', 'n', 'i'] "\"f:0\"" "0" 0)
      = .step (c2mid v "FOO;\n".data [' ', 't', '_', '2', '3', 't', 'n', 'i'] "\"f:0\"" "0" 0) := by
    rw [ha9, insertDef_defsAt0]
    rfl
  have ha10 : ppIter "f" (c2mid v "FOO;\n".data [' ', 't', '_', '2', '3', 't', 'n', 'i'] "\"f:0\"" "0" 0)
      = PPAct.step ⟨"OO;\n".data, ['F', ' ', 't', '_', '2', '3', 't', 'n', 'i'], [], true,
          insertDef "__LINE__" (toString 0)
            (insertDef "__FILE__"
              (String.mk [qChar] ++ "f" ++ ":" ++ toString 0 ++
                String.mk [qChar])
              (defsAt v "\"f:0\"" "0")), 0⟩ := rfl
  have h10 : ppIter "f" (c2mid v "FOO;\n".data [' ', 't', '_', '2', '3', 't', 'n', 'i'] "\"f:0\"" "0" 0)
      = .step (c2mid v "OO;\n".data ['F', ' ', 't', '_', '2', '3', 't', 'n', 'i'] "\"f:0\"" "0" 0) := by
    rw [ha10, insertDef_defsAt0]
    rfl
  have ha11 : ppIter "f" (c2mid v "OO;\n".data ['F', ' ', 't', '_', '2', '3', 't', 'n', 'i'] "\"f:0\"" "0" 0)
      = PPAct.step ⟨"O;\n".data, ['O', 'F', ' ', 't', '_', '2', '3', 't', 'n', 'i'], [], true,
          insertDef "__LINE__" (toString 0)
            (insertDef "__FILE__"
              (String.mk [qChar] ++ "f" ++ ":" ++ toString 0 ++
                String.mk [qChar])
              (defsAt v "\"f:0\"" "0")), 0⟩ := rfl
  have h11 : ppIter "f" (c2mid v "OO;\n".data ['F', ' ', 't', '_', '2', '3', 't', 'n', 'i'] "\"f:0\"" "0" 0)
      = .step (c2mid v "O;\n".data ['O', 'F', ' ', 't', '_', '2', '3', 't', 'n', 'i'] "\"f:0\"" "0" 0) := by
    rw [ha11, insertDef_defsAt0]
    rfl
  have ha12 : ppIter "f" (c2mid v "O;\n".data ['O', 'F', ' ', 't', '_', '2', '3', 't', 'n', 'i'] "\"f:0\"" "0" 0)
      = PPAct.step ⟨[';', '\n'], ['O', 'O', 'F', ' ', 't', '_', '2', '3', 't', 'n', 'i'], [], true,
          insertDef "__LINE__" (toString 0)
            (insertDef "__FILE__"
              (String.mk [qChar] ++ "f" ++ ":" ++ toString 0 ++
                String.mk [qChar])
              (defsAt v "\"f:0\"" "0")), 0⟩ := rfl
  have h12 : ppIter "f" (c2mid v "O;\n".data ['O', 'F', ' ', 't', '_', '2', '3', 't', 'n', 'i'] "\"f:0\"" "0" 0)
      = .step (c2mid v [';', '\n'] ['O', 'O', 'F', ' ', 't', '_', '2', '3', 't', 'n', 'i'] "\"f:0\"" "0" 0) := by
    rw [ha12, insertDef_defsAt0]
    rfl
  have ha13 : ppIter "f" (c2mid v ['\n'] (';' :: ((if v.data.headD nulChar = '0' then [] else v.data.reverse) ++ [' ', 't', '_', '2', '3', 't', 'n', 'i'])) "\"f:0\"" "0" 0)
      = PPAct.step ⟨[], ('\n' :: ';' :: ((if v.data.headD nulChar = '0' then [] else v.data.reverse) ++ [' ', 't', '_', '2', '3', 't', 'n', 'i'])), [], true,
          insertDef "__LINE__" (toString 1)
            (insertDef "__FILE__"
              (String.mk [qChar] ++ "f" ++ ":" ++ toString 1 ++
                String.mk [qChar])
              (defsAt v "\"f:0\"" "0")), 1⟩ := rfl
  have h13 : ppIter "f" (c2mid v ['\n'] (';' :: ((if v.data.headD nulChar = '0' then [] else v.data.reverse) ++ [' ', 't', '_', '2', '3', 't', 'n', 'i'])) "\"f:0\"" "0" 0)
      = .step (c2mid v [] ('\n' :: ';' :: ((if v.data.headD nulChar = '0' then [] else v.data.reverse) ++ [' ', 't', '_', '2', '3', 't', 'n', 'i'])) "\"f:1\"" "1" 1) := by
    rw [ha13, insertDef_defsAt1]
    rfl
  show (ppRun fsNone 20 "f" ""
      (ppInit (minify ("#define FOO " ++ v ++ "\nint32_t FOO;\n").data)
        [])).2 = _
  rw [c2_minify_input v hv]
  rw [ppRun_snd_step fsNone 19 "f" "" _ _ (c2_iter1 v hv)]
  rw [ppRun_snd_step fsNone 18 "f" "" _ _ h2]
  rw [ppRun_snd_step fsNone 17 "f" "" _ _ h3]
  rw [ppRun_snd_step fsNone 16 "f" "" _ _ h4]
  rw [ppRun_snd_step fsNone 15 "f" "" _ _ h5]
  rw [ppRun_snd_step fsNone 14 "f" "" _ _ h6]
  rw [ppRun_snd_step fsNone 13 "f" "" _ _ h7]
  rw [ppRun_snd_step fsNone 12 "f" "" _ _ h8]
  rw [ppRun_snd_step fsNone 11 "f" "" _ _ h9]
  rw [ppRun_snd_step fsNone 10 "f" "" _ _ h10]
  rw [ppRun_snd_step fsNone 9 "f" "" _ _ h11]
  rw [ppRun_snd_step fsNone 8 "f" "" _ _ h12]
  rw [ppRun_snd_step fsNone 7 "f" "" _ _ (c2_iter12 v)]
  rw [ppRun_snd_step fsNone 6 "f" "" _ _ h13]
  rw [ppRun_snd_eof fsNone 5 "f" ""
      (c2mid v [] ('\n' :: ';' :: ((if v.data.headD nulChar = '0' then [] else v.data.reverse) ++ [' ', 't', '_', '2', '3', 't', 'n', 'i'])) "\"f:1\"" "1" 1) rfl rfl]
  have ho : (c2mid v [] ('\n' :: ';' :: ((if v.data.headD nulChar = '0' then [] else v.data.reverse) ++ [' ', 't', '_', '2', '3', 't', 'n', 'i'])) "\"f:1\"" "1" 1).outRev = ('\n' :: ';' :: ((if v.data.headD nulChar = '0' then [] else v.data.reverse) ++ [' ', 't', '_', '2', '3', 't', 'n', 'i'])) := rfl
  have hd : (c2mid v [] ('\n' :: ';' :: ((if v.data.headD nulChar = '0' then [] else v.data.reverse) ++ [' ', 't', '_', '2', '3', 't', 'n', 'i'])) "\"f:1\"" "1" 1).defs
      = defsAt v "\"f:1\"" "1" := rfl
  rw [ho, hd]
  by_cases hv0 : v.data.headD nulChar = '0'
  · rw [if_pos hv0, if_pos hv0]
    rfl
  · rw [if_neg hv0, if_neg hv0]
    simp [List.append_assoc]

/-- C2 counterexample: with `#define FOO 0x5`, whose value `0x5` is neither
empty nor literally `0`, the identifier run `FOO` in `int32_t FOO;` is
deleted rather than replaced by `0x5`: the preprocessor's lookback keys the
deletion on the first character of the bound value being `0`
(idl_parser.cxx:1113), not on the value being empty or literally `0`. -/
theorem preprocess_define_leading_zero_cex :
    (preprocess fsNone 20 "f" "" "#define FOO 0x5\nint32_t FOO;\n" []).2.map
        Prod.fst
      = some "int32_t ;\n".data
    ∧ "0x5" ≠ "0" ∧ "0x5" ≠ "" := by decide

/-- C2 (amended): for an alphanumeric define value `v`, preprocessing
`#define FOO v` followed by `int32_t FOO;` yields `int32_t ` with the
identifier run `FOO` replaced by `v` when `v`'s first character is not
`0` and deleted when it is (rather than the claim's non-empty/not-`"0"`
criterion); and identifier runs inside string literals are never
substituted: with `#define FOO 5`, the literal `"a FOO b"` is copied
unchanged while the later `int32_t FOO;` becomes `int32_t 5;`. -/
theorem preprocess_define_substitution (v : String)
    (hv : ∀ c ∈ v.data, c.isAlphanum = true) :
    (preprocess fsNone 20 "f" ""
        ("#define FOO " ++ v ++ "\nint32_t FOO;\n") []).2.map Prod.fst
      = some ("int32_t ".data ++
          ((if v.data.headD nulChar = '0' then [] else v.data) ++
            ";\n".data))
    ∧ (preprocess fsNone 40 "f" ""
        "#define FOO 5\n\"a FOO b\";\nint32_t FOO;\n" []).2.map Prod.fst
      = some "\"a FOO b\";\nint32_t 5;\n".data := by
  constructor
  · rw [c2_run v hv]
    rfl
  · decide

/-- Witness instantiating the substitution schema at the value `ab`. -/
theorem preprocess_define_substitution_witness :
    (∀ c ∈ "ab".data, c.isAlphanum = true)
    ∧ ((preprocess fsNone 20 "f" ""
          ("#define FOO " ++ "ab" ++ "\nint32_t FOO;\n") []).2.map Prod.fst
        = some ("int32_t ".data ++
            ((if "ab".data.headD nulChar = '0' then [] else "ab".data) ++
              ";\n".data))
      ∧ (preprocess fsNone 40 "f" ""
          "#define FOO 5\n\"a FOO b\";\nint32_t FOO;\n" []).2.map Prod.fst
        = some "\"a FOO b\";\nint32_t 5;\n".data) :=
  ⟨by decide, preprocess_define_substitution "ab" (by decide)⟩

end IdlProof
